import Mathlib

/-!
Verification of the neograph indexing and graph layer.

The extractor operates on concrete-syntax-tree nodes; we embed a node as its
type string, byte span, row span, and named children (each optionally tagged
with its grammar field name).  Source content is a list of characters and a
node's text is the slice of the content between its byte offsets, as in the
Go implementation.  The Neo4j store is embedded as a list of labelled nodes
and typed edges, and each Cypher query is translated into a pure function
over that state.
-/

namespace NeoGraph

/-- Source content, a sequence of characters (bytes in the Go source). -/
abbrev Content := List Char

/-- The slice content from byte a up to byte b, as Go content between indexes a and b. -/
def slice (c : Content) (a b : Nat) : String :=
  String.mk ((c.drop a).take (b - a))

/-- Whether ch is one of the whitespace characters TrimSpace strips. -/
def isSpaceChar (ch : Char) : Bool :=
  ch = ' ' ∨ ch = Char.ofNat 9 ∨ ch = Char.ofNat 10 ∨ ch = Char.ofNat 13

/-- Go strings.TrimSpace: strip whitespace from both ends of s. -/
def goTrimSpace (s : String) : String :=
  String.mk (((s.data.dropWhile isSpaceChar).reverse.dropWhile isSpaceChar).reverse)

/-- Go strings.Split on the newline separator, over the character list. -/
def breakLines : List Char → List (List Char)
  | [] => [[]]
  | ch :: rest =>
    match breakLines rest with
    | [] => [[]]
    | l :: ls => if ch = Char.ofNat 10 then [] :: l :: ls else (ch :: l) :: ls

/-- Go strings.Split on a newline, then TrimSpace of the first line: the
fallback used by all the signature helpers. -/
def firstLineTrimmed (s : String) : String :=
  goTrimSpace (String.mk ((breakLines s.data).headD s.data))

/-- Go strings.TrimPrefix: drop p from the front of s when it is there. -/
def dropFront (s p : String) : String :=
  if p.data.isPrefixOf s.data then String.mk (s.data.drop p.data.length) else s

/-- Go strings.TrimSuffix: drop p from the back of s when it is there. -/
def dropBack (s p : String) : String :=
  if p.data.isSuffixOf s.data then String.mk (s.data.take (s.data.length - p.data.length)) else s

/-- Whether ch is a double or single quote, the cutset of strings.Trim in
getPythonDocstring. -/
def isQuoteChar (ch : Char) : Bool :=
  ch = '"' ∨ ch = Char.ofNat 39

/-- Go strings.Trim with the quote cutset: strip quote characters from both
ends of s. -/
def stripQuotes (s : String) : String :=
  String.mk (((s.data.dropWhile isQuoteChar).reverse.dropWhile isQuoteChar).reverse)

/-- A concrete-syntax-tree node: node type, byte span, row span, and named
children, each optionally tagged with its grammar field name. -/
inductive TSNode : Type where
  | mk (ty : String) (startByte endByte startRow endRow : Nat)
       (children : List (Option String × TSNode)) : TSNode

/-- The node's type string. -/
def TSNode.ty : TSNode → String
  | .mk t _ _ _ _ _ => t

/-- The node's start byte offset. -/
def TSNode.startByte : TSNode → Nat
  | .mk _ s _ _ _ _ => s

/-- The node's end byte offset. -/
def TSNode.endByte : TSNode → Nat
  | .mk _ _ e _ _ _ => e

/-- The node's start row (0-indexed). -/
def TSNode.startRow : TSNode → Nat
  | .mk _ _ _ r _ _ => r

/-- The node's end row (0-indexed). -/
def TSNode.endRow : TSNode → Nat
  | .mk _ _ _ _ r _ => r

/-- The node's children with their optional field names. -/
def TSNode.children : TSNode → List (Option String × TSNode)
  | .mk _ _ _ _ _ cs => cs

/-- NamedChild over the whole list: the children without their field tags. -/
def TSNode.namedChildren (n : TSNode) : List TSNode :=
  n.children.map Prod.snd

/-- ChildByFieldName: the first child carrying the given field name. -/
def TSNode.childByFieldName (n : TSNode) (f : String) : Option TSNode :=
  (n.children.find? (fun p => p.1 = some f)).map Prod.snd

/-- getNodeContent: the text of a node, the slice of the source between its
byte offsets. -/
def getNodeContent (c : Content) (n : TSNode) : String :=
  slice c n.startByte n.endByte

/-- A code entity as produced by the extractor. -/
structure CodeEntity where
  type : String
  name : String
  signature : String
  docstring : String
  startLine : Nat
  endLine : Nat
  filePath : String
  calls : List String
  content : String
deriving DecidableEq, Repr

/-- getPrecedingComment: comment text of the sibling node immediately before
the given node, markers stripped and trimmed; empty when the sibling is
missing or is not a comment. -/
def getPrecedingComment (c : Content) : Option TSNode → String
  | none => ""
  | some prev =>
    if prev.ty = "comment" ∨ prev.ty = "line_comment" ∨ prev.ty = "block_comment" then
      goTrimSpace (dropFront (dropBack (dropFront (dropFront (getNodeContent c prev) "//") "/*") "*/") "#")
    else ""

/-- getPythonDocstring: the string-literal expression statement standing first
in the body block, quotes stripped and trimmed; empty otherwise. -/
def getPythonDocstring (c : Content) (n : TSNode) : String :=
  match n.childByFieldName "body" with
  | none => ""
  | some body =>
    if body.ty = "block" then
      match body.namedChildren.head? with
      | none => ""
      | some firstChild =>
        if firstChild.ty = "expression_statement" then
          match firstChild.namedChildren.head? with
          | some expr =>
            if expr.ty = "string" then goTrimSpace (stripQuotes (getNodeContent c expr)) else ""
          | none => ""
        else ""
    else ""

/-- getPythonSignature: the trimmed first line of the node's text. -/
def getPythonSignature (c : Content) (n : TSNode) : String :=
  firstLineTrimmed (getNodeContent c n)

/-- getTSSignature: text from the node's start up to its body field when that
span is nonempty, trimmed; else the trimmed first line of the full text. -/
def getTSSignature (c : Content) (n : TSNode) : String :=
  match n.childByFieldName "body" with
  | some body =>
    if n.startByte < body.startByte then goTrimSpace (slice c n.startByte body.startByte)
    else firstLineTrimmed (getNodeContent c n)
  | none => firstLineTrimmed (getNodeContent c n)

/-- getJavaSignature: same computation as getTSSignature. -/
def getJavaSignature (c : Content) (n : TSNode) : String :=
  match n.childByFieldName "body" with
  | some body =>
    if n.startByte < body.startByte then goTrimSpace (slice c n.startByte body.startByte)
    else firstLineTrimmed (getNodeContent c n)
  | none => firstLineTrimmed (getNodeContent c n)

/-- The class-body half of getKotlinSignature. -/
def getKotlinSigClass (c : Content) (n : TSNode) : String :=
  match n.childByFieldName "class_body" with
  | some body =>
    if n.startByte < body.startByte then goTrimSpace (slice c n.startByte body.startByte)
    else firstLineTrimmed (getNodeContent c n)
  | none => firstLineTrimmed (getNodeContent c n)

/-- getKotlinSignature: try the function body field, then the class body
field, then the trimmed first line. -/
def getKotlinSignature (c : Content) (n : TSNode) : String :=
  match n.childByFieldName "function_body" with
  | some body =>
    if n.startByte < body.startByte then goTrimSpace (slice c n.startByte body.startByte)
    else getKotlinSigClass c n
  | none => getKotlinSigClass c n

/-- One step of extractCalls: append a callee name unless it is empty or was
already collected (the map lookup in the Go code). -/
def insertCall (acc : List String) (nm : String) : List String :=
  if nm ≠ "" ∧ nm ∉ acc then acc ++ [nm] else acc

mutual
/-- The recursive traversal inside extractCalls: visit the node, record the
text of its function field when it is a call node, then recurse into the
named children in order. -/
def callsWalk (c : Content) : TSNode → List String → List String
  | .mk ty sb eb sr er cs, acc =>
    let n := TSNode.mk ty sb eb sr er cs
    let acc1 :=
      if ty = "call_expression" ∨ ty = "call" then
        match n.childByFieldName "function" with
        | some f => insertCall acc (getNodeContent c f)
        | none => acc
      else acc
    callsWalkList c cs acc1

/-- Traversal of a child list for callsWalk. -/
def callsWalkList (c : Content) : List (Option String × TSNode) → List String → List String
  | [], acc => acc
  | (_, t) :: ps, acc => callsWalkList c ps (callsWalk c t acc)
end

/-- extractCalls: function and method call names found in the node's subtree. -/
def extractCalls (c : Content) (n : TSNode) : List String :=
  callsWalk c n []

mutual
/-- All callee texts of call nodes in the subtree, in pre-order, with
duplicates: the reference stream that extractCalls de-duplicates. -/
def callees (c : Content) : TSNode → List String
  | .mk ty sb eb sr er cs =>
    let n := TSNode.mk ty sb eb sr er cs
    (if ty = "call_expression" ∨ ty = "call" then
      match n.childByFieldName "function" with
      | some f => [getNodeContent c f]
      | none => []
     else []) ++ calleesList c cs

/-- callees over a child list. -/
def calleesList (c : Content) : List (Option String × TSNode) → List String
  | [] => []
  | (_, t) :: ps => callees c t ++ calleesList c ps
end

/-- Drop empty names and the later duplicates, keeping the first occurrence
of every name; seen holds the names already emitted. -/
def dedupFirstAux (seen : List String) : List String → List String
  | [] => []
  | a :: l =>
    if a = "" ∨ a ∈ seen then dedupFirstAux seen l
    else a :: dedupFirstAux (seen ++ [a]) l

/-- Drop empty names and de-duplicate, keeping first occurrences in order. -/
def dedupFirst (l : List String) : List String :=
  dedupFirstAux [] l

mutual
/-- The pre-order traversal of traverseNode, recording for every visited node
the node types of its ancestors (innermost first) and its previous named
sibling, when it has one. -/
def walkA (anc : List String) (prev : Option TSNode) :
    TSNode → List (List String × Option TSNode × TSNode)
  | .mk ty sb eb sr er cs =>
    (anc, prev, TSNode.mk ty sb eb sr er cs) :: walkAList (ty :: anc) none cs

/-- walkA over a child list, threading the previous-sibling pointer. -/
def walkAList (anc : List String) (prev : Option TSNode) :
    List (Option String × TSNode) → List (List String × Option TSNode × TSNode)
  | [] => []
  | (_, t) :: ps => walkA anc prev t ++ walkAList anc (some t) ps
end

/-- extractGoFunction: a Go function or method, named by its name field; the
signature and the content are the full node text. -/
def extractGoFunction (c : Content) (n : TSNode) (prev : Option TSNode)
    (filePath entityType : String) : Option CodeEntity :=
  match n.childByFieldName "name" with
  | none => none
  | some nameNode =>
    let signature := getNodeContent c n
    some { type := entityType
           name := getNodeContent c nameNode
           signature := signature
           docstring := getPrecedingComment c prev
           startLine := n.startRow + 1
           endLine := n.endRow + 1
           filePath := filePath
           calls := extractCalls c n
           content := signature }

/-- extractGoStruct: a Go struct declaration, named by the type identifier of
the type spec; the calls list is empty. -/
def extractGoStruct (c : Content) (declNode typeSpec : TSNode) (prev : Option TSNode)
    (filePath : String) : Option CodeEntity :=
  match typeSpec.namedChildren.find? (fun ch => ch.ty = "type_identifier") with
  | none => none
  | some nameNode =>
    let signature := getNodeContent c declNode
    some { type := "class"
           name := getNodeContent c nameNode
           signature := signature
           docstring := getPrecedingComment c prev
           startLine := declNode.startRow + 1
           endLine := declNode.endRow + 1
           filePath := filePath
           calls := []
           content := signature }

/-- The type-declaration case of extractGo: for each type spec child holding a
struct type, extract one struct entity, in child order. -/
def goStructEntities (c : Content) (n : TSNode) (prev : Option TSNode)
    (filePath : String) : List CodeEntity :=
  (n.namedChildren.filter (fun child =>
    child.ty = "type_spec" ∧ child.namedChildren.any (fun tc => tc.ty = "struct_type"))).flatMap
    (fun child => (extractGoStruct c n child prev filePath).toList)

/-- The entities contributed by one visited node during extractGo. -/
def goEntitiesAt (c : Content) (filePath : String) :
    List String × Option TSNode × TSNode → List CodeEntity
  | (_, prev, n) =>
    if n.ty = "function_declaration" then
      (extractGoFunction c n prev filePath "function").toList
    else if n.ty = "method_declaration" then
      (extractGoFunction c n prev filePath "method").toList
    else if n.ty = "type_declaration" then
      goStructEntities c n prev filePath
    else []

/-- extractGo: entities of a Go source tree. -/
def extractGo (c : Content) (root : TSNode) (filePath : String) : List CodeEntity :=
  (walkA [] none root).flatMap (goEntitiesAt c filePath)

/-- extractPythonFunction: a Python function or method; the signature is the
trimmed first line and the docstring comes from the body, never from a
preceding comment. -/
def extractPythonFunction (c : Content) (n : TSNode)
    (filePath entityType : String) : Option CodeEntity :=
  match n.childByFieldName "name" with
  | none => none
  | some nameNode =>
    some { type := entityType
           name := getNodeContent c nameNode
           signature := getPythonSignature c n
           docstring := getPythonDocstring c n
           startLine := n.startRow + 1
           endLine := n.endRow + 1
           filePath := filePath
           calls := extractCalls c n
           content := getNodeContent c n }

/-- extractPythonClass: a Python class; the calls list is empty. -/
def extractPythonClass (c : Content) (n : TSNode) (filePath : String) : Option CodeEntity :=
  match n.childByFieldName "name" with
  | none => none
  | some nameNode =>
    some { type := "class"
           name := getNodeContent c nameNode
           signature := getPythonSignature c n
           docstring := getPythonDocstring c n
           startLine := n.startRow + 1
           endLine := n.endRow + 1
           filePath := filePath
           calls := []
           content := getNodeContent c n }

/-- The entities contributed by one visited node during extractPython; a
function definition is a method when a class definition is among its
ancestors. -/
def pyEntitiesAt (c : Content) (filePath : String) :
    List String × Option TSNode × TSNode → List CodeEntity
  | (anc, _, n) =>
    if n.ty = "function_definition" then
      let entityType := if "class_definition" ∈ anc then "method" else "function"
      (extractPythonFunction c n filePath entityType).toList
    else if n.ty = "class_definition" then
      (extractPythonClass c n filePath).toList
    else []

/-- extractPython: entities of a Python source tree. -/
def extractPython (c : Content) (root : TSNode) (filePath : String) : List CodeEntity :=
  (walkA [] none root).flatMap (pyEntitiesAt c filePath)

/-- extractTSFunction: a TypeScript or JavaScript function. -/
def extractTSFunction (c : Content) (n : TSNode) (prev : Option TSNode)
    (filePath entityType : String) : Option CodeEntity :=
  match n.childByFieldName "name" with
  | none => none
  | some nameNode =>
    some { type := entityType
           name := getNodeContent c nameNode
           signature := getTSSignature c n
           docstring := getPrecedingComment c prev
           startLine := n.startRow + 1
           endLine := n.endRow + 1
           filePath := filePath
           calls := extractCalls c n
           content := getNodeContent c n }

/-- extractTSClass: a TypeScript or JavaScript class; the calls list is empty. -/
def extractTSClass (c : Content) (n : TSNode) (prev : Option TSNode)
    (filePath : String) : Option CodeEntity :=
  match n.childByFieldName "name" with
  | none => none
  | some nameNode =>
    some { type := "class"
           name := getNodeContent c nameNode
           signature := getTSSignature c n
           docstring := getPrecedingComment c prev
           startLine := n.startRow + 1
           endLine := n.endRow + 1
           filePath := filePath
           calls := []
           content := getNodeContent c n }

/-- extractTSMethod: a TypeScript or JavaScript method. -/
def extractTSMethod (c : Content) (n : TSNode) (prev : Option TSNode)
    (filePath : String) : Option CodeEntity :=
  match n.childByFieldName "name" with
  | none => none
  | some nameNode =>
    some { type := "method"
           name := getNodeContent c nameNode
           signature := getTSSignature c n
           docstring := getPrecedingComment c prev
           startLine := n.startRow + 1
           endLine := n.endRow + 1
           filePath := filePath
           calls := extractCalls c n
           content := getNodeContent c n }

/-- The entities contributed by one visited node during extractTypeScript. -/
def tsEntitiesAt (c : Content) (filePath : String) :
    List String × Option TSNode × TSNode → List CodeEntity
  | (_, prev, n) =>
    if n.ty = "function_declaration" then
      (extractTSFunction c n prev filePath "function").toList
    else if n.ty = "class_declaration" then
      (extractTSClass c n prev filePath).toList
    else if n.ty = "method_definition" then
      (extractTSMethod c n prev filePath).toList
    else []

/-- extractTypeScript: entities of a TypeScript or JavaScript source tree. -/
def extractTypeScript (c : Content) (root : TSNode) (filePath : String) : List CodeEntity :=
  (walkA [] none root).flatMap (tsEntitiesAt c filePath)

/-- extractJavaMethod: a Java method. -/
def extractJavaMethod (c : Content) (n : TSNode) (prev : Option TSNode)
    (filePath : String) : Option CodeEntity :=
  match n.childByFieldName "name" with
  | none => none
  | some nameNode =>
    some { type := "method"
           name := getNodeContent c nameNode
           signature := getJavaSignature c n
           docstring := getPrecedingComment c prev
           startLine := n.startRow + 1
           endLine := n.endRow + 1
           filePath := filePath
           calls := extractCalls c n
           content := getNodeContent c n }

/-- extractJavaClass: a Java class or interface; the calls list is empty. -/
def extractJavaClass (c : Content) (n : TSNode) (prev : Option TSNode)
    (filePath entityType : String) : Option CodeEntity :=
  match n.childByFieldName "name" with
  | none => none
  | some nameNode =>
    some { type := entityType
           name := getNodeContent c nameNode
           signature := getJavaSignature c n
           docstring := getPrecedingComment c prev
           startLine := n.startRow + 1
           endLine := n.endRow + 1
           filePath := filePath
           calls := []
           content := getNodeContent c n }

/-- The entities contributed by one visited node during extractJava. -/
def javaEntitiesAt (c : Content) (filePath : String) :
    List String × Option TSNode × TSNode → List CodeEntity
  | (_, prev, n) =>
    if n.ty = "method_declaration" then
      (extractJavaMethod c n prev filePath).toList
    else if n.ty = "class_declaration" then
      (extractJavaClass c n prev filePath "class").toList
    else if n.ty = "interface_declaration" then
      (extractJavaClass c n prev filePath "interface").toList
    else []

/-- extractJava: entities of a Java source tree. -/
def extractJava (c : Content) (root : TSNode) (filePath : String) : List CodeEntity :=
  (walkA [] none root).flatMap (javaEntitiesAt c filePath)

/-- extractKotlinFunction: a Kotlin function, named by its first simple
identifier child; a method when nested in a class declaration or class body. -/
def extractKotlinFunction (c : Content) (n : TSNode) (anc : List String)
    (prev : Option TSNode) (filePath : String) : Option CodeEntity :=
  match n.namedChildren.find? (fun ch => ch.ty = "simple_identifier") with
  | none => none
  | some nameNode =>
    let entityType :=
      if anc.any (fun a => a = "class_declaration" ∨ a = "class_body") then "method"
      else "function"
    some { type := entityType
           name := getNodeContent c nameNode
           signature := getKotlinSignature c n
           docstring := getPrecedingComment c prev
           startLine := n.startRow + 1
           endLine := n.endRow + 1
           filePath := filePath
           calls := extractCalls c n
           content := getNodeContent c n }

/-- extractKotlinClass: a Kotlin class, named by its first type identifier
child; the calls list is empty. -/
def extractKotlinClass (c : Content) (n : TSNode) (prev : Option TSNode)
    (filePath : String) : Option CodeEntity :=
  match n.namedChildren.find? (fun ch => ch.ty = "type_identifier") with
  | none => none
  | some nameNode =>
    some { type := "class"
           name := getNodeContent c nameNode
           signature := getKotlinSignature c n
           docstring := getPrecedingComment c prev
           startLine := n.startRow + 1
           endLine := n.endRow + 1
           filePath := filePath
           calls := []
           content := getNodeContent c n }

/-- The entities contributed by one visited node during extractKotlin. -/
def kotlinEntitiesAt (c : Content) (filePath : String) :
    List String × Option TSNode × TSNode → List CodeEntity
  | (anc, prev, n) =>
    if n.ty = "function_declaration" then
      (extractKotlinFunction c n anc prev filePath).toList
    else if n.ty = "class_declaration" then
      (extractKotlinClass c n prev filePath).toList
    else []

/-- extractKotlin: entities of a Kotlin source tree. -/
def extractKotlin (c : Content) (root : TSNode) (filePath : String) : List CodeEntity :=
  (walkA [] none root).flatMap (kotlinEntitiesAt c filePath)

/-- Extract: dispatch on the language identifier; an unregistered language is
a hard error. -/
def Extract (c : Content) (root : TSNode) (language filePath : String) :
    Except String (List CodeEntity) :=
  if language = "go" then .ok (extractGo c root filePath)
  else if language = "python" then .ok (extractPython c root filePath)
  else if language = "typescript" ∨ language = "javascript" then
    .ok (extractTypeScript c root filePath)
  else if language = "java" then .ok (extractJava c root filePath)
  else if language = "kotlin" then .ok (extractKotlin c root filePath)
  else .error ("unsupported language: " ++ language)

/-- A file record built by processFile. -/
structure MFile where
  repoId : String
  path : String
  language : String
  hash : String
  size : Int
deriving DecidableEq, Repr

/-- The aggregate result of IndexDirectory. -/
structure IndexResult where
  repoID : String
  filesProcessed : Nat
  entitiesFound : Nat
  errors : List String
  files : List MFile
  entities : List CodeEntity
deriving DecidableEq, Repr

/-- One discovered file: its repo-relative path together with the outcome of
processFile on it (reading, hashing and extraction happen outside the model). -/
abbrev FileJob := String × Except String (MFile × List CodeEntity)

/-- The per-file aggregation step of IndexDirectory: a failure appends one
path-prefixed error string, a success counts the file and accumulates its
record and entities. -/
def indexStep (r : IndexResult) (job : FileJob) : IndexResult :=
  match job.2 with
  | .error msg => { r with errors := r.errors ++ [job.1 ++ ": " ++ msg] }
  | .ok (f, es) =>
    { r with
      filesProcessed := r.filesProcessed + 1
      files := r.files ++ [f]
      entities := r.entities ++ es
      entitiesFound := r.entitiesFound + es.length }

/-- IndexDirectory: a failed directory walk is the only top-level error; on a
successful walk every discovered file is aggregated by indexStep. -/
def IndexDirectory (repoID : String) (walk : Except String (List FileJob)) :
    Except String IndexResult :=
  match walk with
  | .error e => .error ("failed to walk directory: " ++ e)
  | .ok jobs =>
    .ok (jobs.foldl indexStep
      { repoID := repoID, filesProcessed := 0, entitiesFound := 0
        errors := [], files := [], entities := [] })

/-- A node of the Neo4j graph with the properties the queries touch; a kind
of node leaves the properties it does not carry at their defaults. -/
structure GNode where
  id : String
  label : String
  name : String := ""
  path : String := ""
  filePath : String := ""
  repoId : String := ""
  language : String := ""
  signature : String := ""
  startLine : Int := 0
  endLine : Int := 0
deriving DecidableEq, Repr

/-- A typed directed relationship between two node ids. -/
structure GEdge where
  src : String
  tgt : String
  typ : String
deriving DecidableEq, Repr

/-- The graph store: nodes and relationships. -/
structure Graph where
  nodes : List GNode
  edges : List GEdge
deriving DecidableEq, Repr

/-- Whether an edge from s to t with the given type is present. -/
def Graph.hasEdge (g : Graph) (s t ty : String) : Bool :=
  g.edges.contains ⟨s, t, ty⟩

/-- Whether a node carries the Function or the Method label. -/
def isFnOrMethod (n : GNode) : Bool :=
  n.label = "Function" ∨ n.label = "Method"

/-- The caller pattern of WriteCallRelationships: Function or Method nodes
matching the caller's name and file path. -/
def callersFor (g : Graph) (callerName fp : String) : List GNode :=
  g.nodes.filter (fun n => isFnOrMethod n ∧ n.name = callerName ∧ n.filePath = fp)

/-- The callee pattern of WriteCallRelationships: Function or Method nodes
matching the callee name, restricted to the caller's repository. -/
def calleesFor (g : Graph) (calleeName repoId : String) : List GNode :=
  g.nodes.filter (fun n => isFnOrMethod n ∧ n.name = calleeName ∧ n.repoId = repoId)

/-- All CALLS edges the merge clause produces for one callee name. -/
def callEdges (g : Graph) (callerName fp calleeName : String) : List GEdge :=
  (callersFor g callerName fp).flatMap (fun caller =>
    (calleesFor g calleeName caller.repoId).map (fun callee =>
      ⟨caller.id, callee.id, "CALLS"⟩))

/-- Cypher MERGE on a relationship: add the edge unless already present. -/
def mergeEdge (g : Graph) (e : GEdge) : Graph :=
  if e ∈ g.edges then g else { g with edges := g.edges ++ [e] }

/-- One call name of WriteCallRelationships: merge a CALLS edge for every
matching caller and callee pair. -/
def wcrStep (callerName fp : String) (acc : Graph) (nm : String) : Graph :=
  (callEdges acc callerName fp nm).foldl mergeEdge acc

/-- WriteCallRelationships: for every call name of the entity, merge a CALLS
edge for every matching caller and callee pair. -/
def writeCallRelationships (g : Graph) (ent : CodeEntity) : Graph :=
  ent.calls.foldl (wcrStep ent.name ent.filePath) g

/-- One entry of a file tree row. -/
structure FunctionRef where
  id : String
  name : String
  signature : String
  startLine : Int
  endLine : Int
deriving DecidableEq, Repr

/-- One row of GetFileTree: a file and its declared functions. -/
structure FileNode where
  id : String
  path : String
  language : String
  functions : List FunctionRef
deriving DecidableEq, Repr

/-- Start-line comparison used to order a file's declared entities. -/
def lineLE (a b : GNode) : Prop := a.startLine ≤ b.startLine

instance : DecidableRel lineLE := fun a b => inferInstanceAs (Decidable (a.startLine ≤ b.startLine))

instance : IsTotal GNode lineLE := ⟨fun a b => le_total a.startLine b.startLine⟩

instance : IsTrans GNode lineLE := ⟨fun _ _ _ h1 h2 => le_trans h1 h2⟩

/-- Path comparison used to order the file rows. -/
def pathLE (a b : GNode) : Prop := a.path ≤ b.path

instance : DecidableRel pathLE := fun a b => inferInstanceAs (Decidable (a.path ≤ b.path))

instance : IsTotal GNode pathLE := ⟨fun a b => le_total a.path b.path⟩

instance : IsTrans GNode pathLE := ⟨fun _ _ _ h1 h2 => le_trans h1 h2⟩

/-- The Function and Method nodes a file declares. -/
def declaredFns (g : Graph) (f : GNode) : List GNode :=
  g.nodes.filter (fun n => isFnOrMethod n ∧ g.hasEdge f.id n.id "DECLARES")

/-- The File nodes a repository contains. -/
def repoFiles (g : Graph) (repoID : String) : List GNode :=
  (g.nodes.filter (fun n => n.label = "Repository" ∧ n.id = repoID)).flatMap (fun r =>
    g.nodes.filter (fun f => f.label = "File" ∧ g.hasEdge r.id f.id "CONTAINS"))

/-- GetFileTree: one row per contained file, ordered by path, each carrying
its declared Function and Method entities ordered by start line. -/
def getFileTree (g : Graph) (repoID : String) : List FileNode :=
  (List.insertionSort pathLE (repoFiles g repoID)).map (fun f =>
    { id := f.id, path := f.path, language := f.language
      functions := (List.insertionSort lineLE (declaredFns g f)).map (fun n =>
        { id := n.id, name := n.name, signature := n.signature
          startLine := n.startLine, endLine := n.endLine }) })

/-- An output node of GetGraph. -/
structure GraphNodeOut where
  id : String
  lab : String
  ty : String
  props : List (String × String)
deriving DecidableEq, Repr

/-- An output edge of GetGraph. -/
structure GraphEdgeOut where
  id : String
  source : String
  target : String
  ty : String
deriving DecidableEq, Repr

/-- The output of GetGraph. -/
structure GraphData where
  nodes : List GraphNodeOut
  edges : List GraphEdgeOut
deriving DecidableEq, Repr

/-- Insert into an id-keyed association map only when the key is absent. -/
def mapInsert {β : Type} (m : List (String × β)) (k : String) (v : β) : List (String × β) :=
  if (m.lookup k).isSome then m else m ++ [(k, v)]

/-- The rows of the structure-mode query: a contained file joined optionally
with each declared Function or Method. -/
def structRows (g : Graph) (repoID : String) : List (GNode × Option GNode) :=
  (repoFiles g repoID).flatMap (fun f =>
    match declaredFns g f with
    | [] => [(f, none)]
    | fns => fns.map (fun fn => (f, some fn)))

/-- The rows of the calls-mode query: a declared Function or Method joined
optionally with each call target. -/
def callRows (g : Graph) (repoID : String) : List (GNode × Option GNode) :=
  (repoFiles g repoID).flatMap (fun f =>
    (declaredFns g f).flatMap (fun fn =>
      match g.nodes.filter (fun t => isFnOrMethod t ∧ g.hasEdge fn.id t.id "CALLS") with
      | [] => [(fn, none)]
      | ts => ts.map (fun t => (fn, some t))))

/-- The output node built from a function node in either mode. -/
def fnNodeOut (fn : GNode) (withPath : Bool) : GraphNodeOut :=
  { id := fn.id, lab := fn.name, ty := "Function"
    props := if withPath then [("signature", fn.signature), ("filePath", fn.filePath)]
             else [("signature", fn.signature)] }

/-- Processing of one calls-mode row: record the function node, and when a
call target is present record it and the CALLS edge keyed by source and
target ids. -/
def stepCalls (acc : List (String × GraphNodeOut) × List (String × GraphEdgeOut))
    (row : GNode × Option GNode) :
    List (String × GraphNodeOut) × List (String × GraphEdgeOut) :=
  let nm := mapInsert acc.1 row.1.id (fnNodeOut row.1 true)
  match row.2 with
  | none => (nm, acc.2)
  | some t =>
    let nm2 := mapInsert nm t.id (fnNodeOut t true)
    let eid := row.1.id ++ "->" ++ t.id
    (nm2, mapInsert acc.2 eid ⟨eid, row.1.id, t.id, "CALLS"⟩)

/-- Processing of one structure-mode row: record the file node, and when a
declared function is present record it and the DECLARES edge. -/
def stepStruct (acc : List (String × GraphNodeOut) × List (String × GraphEdgeOut))
    (row : GNode × Option GNode) :
    List (String × GraphNodeOut) × List (String × GraphEdgeOut) :=
  let nm := mapInsert acc.1 row.1.id
    { id := row.1.id, lab := row.1.path, ty := "File", props := [("language", row.1.language)] }
  match row.2 with
  | none => (nm, acc.2)
  | some fn =>
    let nm2 := mapInsert nm fn.id (fnNodeOut fn false)
    let eid := row.1.id ++ "->" ++ fn.id
    (nm2, mapInsert acc.2 eid ⟨eid, row.1.id, fn.id, "DECLARES"⟩)

/-- GetGraph: run the mode's query, fold its rows through the id-keyed node
and edge maps, and flatten the maps to lists. -/
def getGraph (g : Graph) (repoID graphType : String) : GraphData :=
  let maps :=
    if graphType = "calls" then (callRows g repoID).foldl stepCalls ([], [])
    else (structRows g repoID).foldl stepStruct ([], [])
  { nodes := maps.1.map Prod.snd, edges := maps.2.map Prod.snd }

/-- One vector search result. -/
structure SearchResult where
  id : String
  name : String
  signature : String
  filePath : String
  repoId : String
  repoName : String
  score : Int
deriving DecidableEq, Repr

/-- Descending score comparison. -/
def scoreGE (a b : GNode × GNode × Int) : Prop := b.2.2 ≤ a.2.2

instance : DecidableRel scoreGE := fun a b => inferInstanceAs (Decidable (b.2.2 ≤ a.2.2))

instance : IsTotal (GNode × GNode × Int) scoreGE := ⟨fun a b => le_total b.2.2 a.2.2⟩

instance : IsTrans (GNode × GNode × Int) scoreGE := ⟨fun _ _ _ h1 h2 => le_trans h2 h1⟩

/-- Whether a repository node passes the optional repository filter. -/
def repoFilter (repoId? : Option String) (r : GNode) : Bool :=
  match repoId? with
  | none => true
  | some rid => r.id = rid

/-- The joined rows of VectorSearch: each index hit joined back through
DECLARES and CONTAINS to its owning file and repository, the optional
repository filter applied. -/
def vsRows (g : Graph) (hits : List (GNode × Int)) (repoId? : Option String) :
    List (GNode × GNode × Int) :=
  hits.flatMap (fun h =>
    (g.nodes.filter (fun f => f.label = "File" ∧ g.hasEdge f.id h.1.id "DECLARES")).flatMap
      (fun f =>
        (g.nodes.filter (fun r => r.label = "Repository" ∧ g.hasEdge r.id f.id "CONTAINS" ∧
            repoFilter repoId? r)).map (fun r => (h.1, r, h.2))))

/-- VectorSearch: the similarity index returns the hits; the query joins each
hit to its owning file and repository, filters, orders by descending score
and attaches the repository context. -/
def vectorSearch (g : Graph) (hits : List (GNode × Int)) (repoId? : Option String) :
    List SearchResult :=
  (List.insertionSort scoreGE (vsRows g hits repoId?)).map (fun row =>
    { id := row.1.id, name := row.1.name, signature := row.1.signature
      filePath := row.1.filePath, repoId := row.2.1.id, repoName := row.2.1.name
      score := row.2.2 })

/-- The File nodes the clear query matches: files with a CONTAINS edge from
the repository node. -/
def clearFiles (g : Graph) (repoID : String) : List GNode :=
  g.nodes.filter (fun f => f.label = "File" ∧
    g.nodes.any (fun r => r.label = "Repository" ∧ r.id = repoID ∧
      g.hasEdge r.id f.id "CONTAINS"))

/-- The nodes the clear query matches through DECLARES from a matched file. -/
def clearEntities (g : Graph) (repoID : String) : List GNode :=
  g.nodes.filter (fun e =>
    (clearFiles g repoID).any (fun f => g.hasEdge f.id e.id "DECLARES"))

/-- The ids DETACH DELETE removes. -/
def deletedIds (g : Graph) (repoID : String) : List String :=
  (clearFiles g repoID).map GNode.id ++ (clearEntities g repoID).map GNode.id

/-- ClearRepository: detach-delete the matched files and their declared
nodes, removing every edge incident to a deleted node. -/
def clearRepository (g : Graph) (repoID : String) : Graph :=
  { nodes := g.nodes.filter (fun n => n.id ∉ deletedIds g repoID)
    edges := g.edges.filter (fun e =>
      e.src ∉ deletedIds g repoID ∧ e.tgt ∉ deletedIds g repoID) }

/-- Well-formedness of a graph as established by the writer: node ids are
unique, a CONTAINS edge from a Repository node points at a node carrying that
repository's id, and a DECLARES edge from a File node points at a
non-Repository node of the file's repository. -/
def Graph.WellFormed (g : Graph) : Prop :=
  (g.nodes.map GNode.id).Nodup ∧
  (∀ r ∈ g.nodes, ∀ f ∈ g.nodes, r.label = "Repository" →
    GEdge.mk r.id f.id "CONTAINS" ∈ g.edges → f.repoId = r.id) ∧
  (∀ f ∈ g.nodes, ∀ e ∈ g.nodes, f.label = "File" →
    GEdge.mk f.id e.id "DECLARES" ∈ g.edges → e.repoId = f.repoId ∧ e.label ≠ "Repository")

instance (g : Graph) : Decidable g.WellFormed := by
  unfold Graph.WellFormed
  infer_instance

/-- The invariant the calls-mode fold maintains: unique keys, stored ids
matching keys, node type Function, edge type CALLS. -/
def callsInv (acc : List (String × GraphNodeOut) × List (String × GraphEdgeOut)) : Prop :=
  ((acc.1.map Prod.fst).Nodup ∧ ∀ p ∈ acc.1, p.2.id = p.1 ∧ p.2.ty = "Function") ∧
  ((acc.2.map Prod.fst).Nodup ∧ ∀ q ∈ acc.2, q.2.id = q.1 ∧ q.2.ty = "CALLS")

/-- The invariant the structure-mode fold maintains: unique keys, stored ids
matching keys, node type File or Function, edge type DECLARES. -/
def structInv (acc : List (String × GraphNodeOut) × List (String × GraphEdgeOut)) : Prop :=
  ((acc.1.map Prod.fst).Nodup ∧
    ∀ p ∈ acc.1, p.2.id = p.1 ∧ (p.2.ty = "File" ∨ p.2.ty = "Function")) ∧
  ((acc.2.map Prod.fst).Nodup ∧ ∀ q ∈ acc.2, q.2.id = q.1 ∧ q.2.ty = "DECLARES")

/-- Source of the Go file behind the C1 counterexample. -/
def exC1content : Content := "func f() { a.b() }".data

/-- The dotted callee of the call in exC1content. -/
def exC1callee : TSNode := .mk "selector_expression" 11 14 0 0 []

/-- The call expression in exC1content. -/
def exC1call : TSNode := .mk "call_expression" 11 16 0 0 [(some "function", exC1callee)]

/-- The function body in exC1content. -/
def exC1body : TSNode := .mk "block" 9 18 0 0 [(none, exC1call)]

/-- The function name in exC1content. -/
def exC1name : TSNode := .mk "identifier" 5 6 0 0 []

/-- The function declaration in exC1content. -/
def exC1fn : TSNode :=
  .mk "function_declaration" 0 18 0 0 [(some "name", exC1name), (some "body", exC1body)]

/-- The parse tree of exC1content. -/
def exC1root : TSNode := .mk "source_file" 0 18 0 0 [(none, exC1fn)]

/-- Source of the Go file behind the C2 counterexample. -/
def exC2content : Content := "func g() { h() }".data

/-- The callee of the call in exC2content. -/
def exC2callee : TSNode := .mk "identifier" 11 12 0 0 []

/-- The call expression in exC2content. -/
def exC2call : TSNode := .mk "call_expression" 11 14 0 0 [(some "function", exC2callee)]

/-- The function body in exC2content. -/
def exC2body : TSNode := .mk "block" 9 16 0 0 [(none, exC2call)]

/-- The function name in exC2content. -/
def exC2name : TSNode := .mk "identifier" 5 6 0 0 []

/-- The function declaration in exC2content. -/
def exC2fn : TSNode :=
  .mk "function_declaration" 0 16 0 0 [(some "name", exC2name), (some "body", exC2body)]

/-- Source of the TypeScript function used by the C2 witness. -/
def exC2tsContent : Content := "function t() { u() }".data

/-- The TypeScript function name node. -/
def exC2tsName : TSNode := .mk "identifier" 9 10 0 0 []

/-- The TypeScript function body node. -/
def exC2tsBody : TSNode := .mk "statement_block" 13 20 0 0 []

/-- The TypeScript function declaration node. -/
def exC2tsFn : TSNode :=
  .mk "function_declaration" 0 20 0 0 [(some "name", exC2tsName), (some "body", exC2tsBody)]

/-- Source of the Python function used by the C2 witness. -/
def exC2pyContent : Content := "def p():\n    return 1".data

/-- The Python function name node. -/
def exC2pyName : TSNode := .mk "identifier" 4 5 0 0 []

/-- The Python function body node. -/
def exC2pyBody : TSNode := .mk "block" 13 21 1 1 [(none, .mk "return_statement" 13 21 1 1 [])]

/-- The Python function definition node. -/
def exC2pyFn : TSNode :=
  .mk "function_definition" 0 21 0 1 [(some "name", exC2pyName), (some "body", exC2pyBody)]

/-- Source of the Kotlin function used by the C2 witness. -/
def exC2ktContent : Content := "fun k() { m() }".data

/-- The Kotlin function name node. -/
def exC2ktName : TSNode := .mk "simple_identifier" 4 5 0 0 []

/-- The Kotlin function body node. -/
def exC2ktBody : TSNode := .mk "function_body" 8 15 0 0 []

/-- The Kotlin function declaration node. -/
def exC2ktFn : TSNode :=
  .mk "function_declaration" 0 15 0 0 [(none, exC2ktName), (some "function_body", exC2ktBody)]

/-- Source of the Kotlin class used by the C2 witness. -/
def exC2ktClsContent : Content := "class C { }".data

/-- The Kotlin class name node. -/
def exC2ktClsName : TSNode := .mk "type_identifier" 6 7 0 0 []

/-- The Kotlin class body node. -/
def exC2ktClsBody : TSNode := .mk "class_body" 8 11 0 0 []

/-- The Kotlin class declaration node. -/
def exC2ktCls : TSNode :=
  .mk "class_declaration" 0 11 0 0 [(none, exC2ktClsName), (some "class_body", exC2ktClsBody)]

/-- Source of the Python class used by the C2 witness. -/
def exC2pyClsContent : Content := "class D:\n    pass".data

/-- The Python class name node. -/
def exC2pyClsName : TSNode := .mk "identifier" 6 7 0 0 []

/-- The Python class body node. -/
def exC2pyClsBody : TSNode :=
  .mk "block" 13 17 1 1 [(none, .mk "pass_statement" 13 17 1 1 [])]

/-- The Python class definition node. -/
def exC2pyCls : TSNode :=
  .mk "class_definition" 0 17 0 1 [(some "name", exC2pyClsName), (some "body", exC2pyClsBody)]

/-- Source of the Python file behind the C9 witness: a function with a
preceding comment and a leading string literal in its body. -/
def exC9content : Content := "# note\ndef d():\n    \"doc\"\n    return 1".data

/-- The comment preceding the function in exC9content. -/
def exC9prev : TSNode := .mk "comment" 0 6 0 0 []

/-- The docstring string literal in exC9content. -/
def exC9str : TSNode := .mk "string" 20 25 2 2 []

/-- The expression statement wrapping the docstring in exC9content. -/
def exC9expr : TSNode := .mk "expression_statement" 20 25 2 2 [(none, exC9str)]

/-- The return statement in exC9content. -/
def exC9ret : TSNode := .mk "return_statement" 30 38 3 3 []

/-- The function body in exC9content. -/
def exC9body : TSNode := .mk "block" 20 38 2 3 [(none, exC9expr), (none, exC9ret)]

/-- The function name in exC9content. -/
def exC9name : TSNode := .mk "identifier" 11 12 1 1 []

/-- The function definition in exC9content. -/
def exC9fn : TSNode :=
  .mk "function_definition" 7 38 1 3 [(some "name", exC9name), (some "body", exC9body)]

/-- A processed file record for the C4 witness. -/
def exC4file : MFile := { repoId := "r1", path := "a.go", language := "go", hash := "1", size := 10 }

/-- A two-file walk with one failing file, for the C4 witness. -/
def exC4jobs : List FileJob := [("a.go", .ok (exC4file, [])), ("b.py", .error "boom")]

/-- Caller node of the C3 witness graph. -/
def exC3caller : GNode :=
  { id := "n1", label := "Function", name := "main", filePath := "main.go", repoId := "r1" }

/-- Callee node of the C3 witness graph. -/
def exC3callee : GNode :=
  { id := "n2", label := "Function", name := "helper", filePath := "utils.go", repoId := "r1" }

/-- The C3 witness graph. -/
def exC3graph : Graph := { nodes := [exC3caller, exC3callee], edges := [] }

/-- The entity whose calls the C3 witness writes. -/
def exC3ent : CodeEntity :=
  { type := "function", name := "main", signature := "func main()", docstring := ""
    startLine := 1, endLine := 2, filePath := "main.go", calls := ["helper"]
    content := "func main()" }

/-- Repository node of the C5 witness graph. -/
def exC5repo : GNode := { id := "r1", label := "Repository", name := "demo" }

/-- File node of the C5 witness graph. -/
def exC5file : GNode :=
  { id := "f1", label := "File", path := "main.go", language := "go", repoId := "r1" }

/-- First declared function of the C5 witness graph. -/
def exC5fn1 : GNode :=
  { id := "e1", label := "Function", name := "main", filePath := "main.go", repoId := "r1"
    signature := "func main()", startLine := 5, endLine := 9 }

/-- Second declared function of the C5 witness graph. -/
def exC5fn2 : GNode :=
  { id := "e2", label := "Function", name := "helper", filePath := "main.go", repoId := "r1"
    signature := "func helper()", startLine := 2, endLine := 4 }

/-- The C5 witness graph. -/
def exC5graph : Graph :=
  { nodes := [exC5repo, exC5file, exC5fn1, exC5fn2]
    edges := [⟨"r1", "f1", "CONTAINS"⟩, ⟨"f1", "e1", "DECLARES"⟩, ⟨"f1", "e2", "DECLARES"⟩] }

/-- The C7 witness reuses a one-repository graph with an embedded function. -/
def exC7repo : GNode := { id := "r1", label := "Repository", name := "demo" }

/-- File node of the C7 witness graph. -/
def exC7file : GNode :=
  { id := "f1", label := "File", path := "main.go", language := "go", repoId := "r1" }

/-- Embedded function node of the C7 witness graph. -/
def exC7fn : GNode :=
  { id := "e1", label := "Function", name := "main", filePath := "main.go", repoId := "r1"
    signature := "func main()" }

/-- The C7 witness graph. -/
def exC7graph : Graph :=
  { nodes := [exC7repo, exC7file, exC7fn]
    edges := [⟨"r1", "f1", "CONTAINS"⟩, ⟨"f1", "e1", "DECLARES"⟩] }

/-- The index hits handed to the C7 witness search. -/
def exC7hits : List (GNode × Int) := [(exC7fn, 90)]

/-- First repository of the C8 witness graph. -/
def exC8repo1 : GNode := { id := "r1", label := "Repository", name := "one" }

/-- Second repository of the C8 witness graph. -/
def exC8repo2 : GNode := { id := "r2", label := "Repository", name := "two" }

/-- File of the first repository in the C8 witness graph. -/
def exC8file1 : GNode :=
  { id := "f1", label := "File", path := "a.go", language := "go", repoId := "r1" }

/-- File of the second repository in the C8 witness graph. -/
def exC8file2 : GNode :=
  { id := "f2", label := "File", path := "b.go", language := "go", repoId := "r2" }

/-- Entity of the first repository in the C8 witness graph. -/
def exC8ent1 : GNode :=
  { id := "e1", label := "Function", name := "main", filePath := "a.go", repoId := "r1" }

/-- Entity of the second repository in the C8 witness graph. -/
def exC8ent2 : GNode :=
  { id := "e2", label := "Function", name := "other", filePath := "b.go", repoId := "r2" }

/-- The C8 witness graph: two repositories with one file and one entity each. -/
def exC8graph : Graph :=
  { nodes := [exC8repo1, exC8repo2, exC8file1, exC8file2, exC8ent1, exC8ent2]
    edges := [⟨"r1", "f1", "CONTAINS"⟩, ⟨"r2", "f2", "CONTAINS"⟩,
              ⟨"f1", "e1", "DECLARES"⟩, ⟨"f2", "e2", "DECLARES"⟩] }

/-- Source of the Go file behind the C10 witness: a struct declaration. -/
def exC10content : Content := "type T struct { x int }".data

/-- The struct type node in exC10content. -/
def exC10struct : TSNode := .mk "struct_type" 7 23 0 0 []

/-- The type name in exC10content. -/
def exC10tyName : TSNode := .mk "type_identifier" 5 6 0 0 []

/-- The type spec in exC10content. -/
def exC10spec : TSNode :=
  .mk "type_spec" 5 23 0 0 [(none, exC10tyName), (none, exC10struct)]

/-- The type declaration in exC10content. -/
def exC10decl : TSNode := .mk "type_declaration" 0 23 0 0 [(none, exC10spec)]

/-- The parse tree of exC10content. -/
def exC10root : TSNode := .mk "source_file" 0 23 0 0 [(none, exC10decl)]

/-- The class entity the extractor produces from exC10root. -/
def exC10entity : CodeEntity :=
  { type := "class", name := "T", signature := "type T struct { x int }", docstring := ""
    startLine := 1, endLine := 1, filePath := "t.go", calls := []
    content := "type T struct { x int }" }

/-- The entity the extractor produces from exC2fn. -/
def exC2goEntity : CodeEntity :=
  { type := "function", name := "g", signature := "func g() { h() }", docstring := ""
    startLine := 1, endLine := 1, filePath := "main.go", calls := ["h"]
    content := "func g() { h() }" }

/-- The entity the extractor produces from exC2pyFn. -/
def exC2pyEntity : CodeEntity :=
  { type := "function", name := "p", signature := "def p():", docstring := ""
    startLine := 1, endLine := 2, filePath := "m.py", calls := []
    content := "def p():\n    return 1" }

/-- The entity the extractor produces from exC2pyCls. -/
def exC2pyClsEntity : CodeEntity :=
  { type := "class", name := "D", signature := "class D:", docstring := ""
    startLine := 1, endLine := 2, filePath := "m.py", calls := []
    content := "class D:\n    pass" }

/-- The entity the extractor produces from exC2ktFn. -/
def exC2ktEntity : CodeEntity :=
  { type := "function", name := "k", signature := "fun k()", docstring := ""
    startLine := 1, endLine := 1, filePath := "k.kt", calls := []
    content := "fun k() { m() }" }

/-- The entity the extractor produces from exC9fn. -/
def exC9entity : CodeEntity :=
  { type := "function", name := "d", signature := "def d():", docstring := "doc"
    startLine := 2, endLine := 4, filePath := "t.py", calls := []
    content := "def d():\n    \"doc\"\n    return 1" }

mutual
/-- The traversal of extractCalls folds insertCall over the pre-order callee
stream. -/
theorem callsWalk_eq (c : Content) : (t : TSNode) → (acc : List String) →
    callsWalk c t acc = (callees c t).foldl insertCall acc
  | .mk ty sb eb sr er cs, acc => by
    rw [callsWalk, callees, List.foldl_append,
      callsWalkList_eq c cs]
    by_cases hty : ty = "call_expression" ∨ ty = "call"
    · simp only [hty, if_true]
      cases (TSNode.mk ty sb eb sr er cs).childByFieldName "function" with
      | none => rfl
      | some f => rfl
    · simp only [hty, if_false]
      rfl

/-- callsWalk_eq over a child list. -/
theorem callsWalkList_eq (c : Content) : (ps : List (Option String × TSNode)) →
    (acc : List String) →
    callsWalkList c ps acc = (calleesList c ps).foldl insertCall acc
  | [], _ => rfl
  | (f, t) :: ps, acc => by
    rw [callsWalkList, calleesList, List.foldl_append, ← callsWalk_eq c t acc,
      callsWalkList_eq c ps]
end

/-- Folding insertCall appends exactly the first occurrences of nonempty
names not already accumulated. -/
theorem foldl_insertCall (l : List String) : ∀ acc : List String,
    l.foldl insertCall acc = acc ++ dedupFirstAux acc l := by
  induction l with
  | nil => intro acc; simp [dedupFirstAux]
  | cons a l ih =>
    intro acc
    rw [List.foldl_cons, dedupFirstAux]
    by_cases h : a = "" ∨ a ∈ acc
    · have hins : insertCall acc a = acc := by
        rw [insertCall, if_neg]
        intro hcon
        rcases h with h | h
        · exact hcon.1 h
        · exact hcon.2 h
      rw [hins, if_pos h, ih]
    · have hins : insertCall acc a = acc ++ [a] := by
        rw [insertCall, if_pos]
        push_neg at h
        exact ⟨h.1, h.2⟩
      rw [hins, if_neg h, ih, List.append_assoc]
      rfl

/-- Every name dedupFirstAux emits avoids the seen accumulator. -/
theorem mem_dedupFirstAux (x : String) : ∀ (l seen : List String),
    x ∈ dedupFirstAux seen l → x ∉ seen := by
  intro l
  induction l with
  | nil => intro seen h; simp [dedupFirstAux] at h
  | cons a l ih =>
    intro seen h
    rw [dedupFirstAux] at h
    split at h
    · exact ih seen h
    · rcases List.mem_cons.mp h with rfl | h2
      · rename_i hcond
        intro hx
        exact hcond (Or.inr hx)
      · intro hx
        exact ih (seen ++ [a]) h2 (List.mem_append_left _ hx)

/-- dedupFirstAux never emits a name twice. -/
theorem nodup_dedupFirstAux : ∀ (l seen : List String), (dedupFirstAux seen l).Nodup := by
  intro l
  induction l with
  | nil => intro seen; simp [dedupFirstAux]
  | cons a l ih =>
    intro seen
    rw [dedupFirstAux]
    split
    · exact ih seen
    · refine List.nodup_cons.mpr ⟨fun hmem => ?_, ih (seen ++ [a])⟩
      exact mem_dedupFirstAux a l (seen ++ [a]) hmem (List.mem_append_right _ (List.mem_singleton.mpr rfl))

/-- C1: for every syntax tree, the extracted calls list is the pre-order
stream of callee texts with empty names dropped and later duplicates removed,
keeping first occurrences in order — the callee text is recorded in full, not
truncated to its last dotted segment — and every recorded name appears
exactly once. -/
theorem c1_calls_full_text_first_occurrence (c : Content) (t : TSNode) :
    extractCalls c t = dedupFirst (callees c t) ∧ (extractCalls c t).Nodup := by
  have h : extractCalls c t = dedupFirst (callees c t) := by
    rw [extractCalls, callsWalk_eq, dedupFirst, foldl_insertCall, List.nil_append]
  exact ⟨h, h ▸ nodup_dedupFirstAux _ _⟩

/-- C1 counterexample: for the Go source of a function whose body calls a.b()
the extractor records the full callee text a.b, not the last dotted segment
b, so the truncation stated by the claim does not happen. -/
theorem c1_counterexample :
    (extractGo exC1content exC1root "main.go").map CodeEntity.calls = [["a.b"]] ∧
    ∀ e ∈ extractGo exC1content exC1root "main.go", "b" ∉ e.calls := by
  decide

/-- C2 counterexample: for the Go function whose node carries a body field,
the extractor records the full node text as the signature, not the trimmed
text up to the body block as the claim states. -/
theorem c2_counterexample :
    exC2fn.childByFieldName "body" = some exC2body ∧
    (extractGoFunction exC2content exC2fn none "main.go" "function").map CodeEntity.signature
      = some "func g() { h() }" ∧
    goTrimSpace (slice exC2content exC2fn.startByte exC2body.startByte) = "func g()" ∧
    "func g() { h() }" ≠ "func g()" :=
  ⟨rfl, by decide, by decide, by decide⟩

/-- C2 as amended: the up-to-body-trimmed rule with first-line fallback is
what the TypeScript, JavaScript and Java signature helpers compute, and the
Kotlin helper computes it on its function-body field; Go function and method
entities instead record the full node text, and Python entities record the
trimmed first line of the node text. -/
theorem c2_signature_rules :
    (∀ (c : Content) (n b : TSNode), n.childByFieldName "body" = some b →
      n.startByte < b.startByte →
      getTSSignature c n = goTrimSpace (slice c n.startByte b.startByte)) ∧
    (∀ (c : Content) (n : TSNode), n.childByFieldName "body" = none →
      getTSSignature c n = firstLineTrimmed (getNodeContent c n)) ∧
    (∀ (c : Content) (n : TSNode), getJavaSignature c n = getTSSignature c n) ∧
    (∀ (c : Content) (n b : TSNode), n.childByFieldName "function_body" = some b →
      n.startByte < b.startByte →
      getKotlinSignature c n = goTrimSpace (slice c n.startByte b.startByte)) ∧
    (∀ (c : Content) (n b : TSNode), n.childByFieldName "function_body" = none →
      n.childByFieldName "class_body" = some b → n.startByte < b.startByte →
      getKotlinSignature c n = goTrimSpace (slice c n.startByte b.startByte)) ∧
    (∀ (c : Content) (n : TSNode) (prev : Option TSNode) (fp ety : String) (e : CodeEntity),
      extractGoFunction c n prev fp ety = some e → e.signature = getNodeContent c n) ∧
    (∀ (c : Content) (n : TSNode) (fp ety : String) (e : CodeEntity),
      extractPythonFunction c n fp ety = some e →
      e.signature = firstLineTrimmed (getNodeContent c n)) ∧
    (∀ (c : Content) (n : TSNode) (fp : String) (e : CodeEntity),
      extractPythonClass c n fp = some e →
      e.signature = firstLineTrimmed (getNodeContent c n)) ∧
    (∀ (c : Content) (n : TSNode) (prev : Option TSNode) (fp ety : String) (e : CodeEntity),
      extractTSFunction c n prev fp ety = some e → e.signature = getTSSignature c n) ∧
    (∀ (c : Content) (n : TSNode) (prev : Option TSNode) (fp : String) (e : CodeEntity),
      extractTSClass c n prev fp = some e → e.signature = getTSSignature c n) ∧
    (∀ (c : Content) (n : TSNode) (prev : Option TSNode) (fp : String) (e : CodeEntity),
      extractTSMethod c n prev fp = some e → e.signature = getTSSignature c n) ∧
    (∀ (c : Content) (n : TSNode) (prev : Option TSNode) (fp : String) (e : CodeEntity),
      extractJavaMethod c n prev fp = some e → e.signature = getJavaSignature c n) ∧
    (∀ (c : Content) (n : TSNode) (prev : Option TSNode) (fp ety : String) (e : CodeEntity),
      extractJavaClass c n prev fp ety = some e → e.signature = getJavaSignature c n) ∧
    (∀ (c : Content) (n : TSNode) (anc : List String) (prev : Option TSNode) (fp : String)
      (e : CodeEntity), extractKotlinFunction c n anc prev fp = some e →
      e.signature = getKotlinSignature c n) ∧
    (∀ (c : Content) (n : TSNode) (prev : Option TSNode) (fp : String) (e : CodeEntity),
      extractKotlinClass c n prev fp = some e → e.signature = getKotlinSignature c n) := by
  refine ⟨?_, ?_, ?_, ?_, ?_, ?_, ?_, ?_, ?_, ?_, ?_, ?_, ?_, ?_, ?_⟩
  · intro c n b hb hlt
    simp only [getTSSignature, hb]
    rw [if_pos hlt]
  · intro c n hb
    simp only [getTSSignature, hb]
  · intro c n
    rw [getJavaSignature, getTSSignature]
  · intro c n b hb hlt
    simp only [getKotlinSignature, hb]
    rw [if_pos hlt]
  · intro c n b hfb hcb hlt
    simp only [getKotlinSignature, hfb, getKotlinSigClass, hcb]
    rw [if_pos hlt]
  · intro c n prev fp ety e he
    rw [extractGoFunction] at he
    cases hn : n.childByFieldName "name" with
    | none => rw [hn] at he; exact absurd he (by simp)
    | some nameNode =>
      rw [hn] at he
      cases he
      rfl
  · intro c n fp ety e he
    rw [extractPythonFunction] at he
    cases hn : n.childByFieldName "name" with
    | none => rw [hn] at he; exact absurd he (by simp)
    | some nameNode =>
      rw [hn] at he
      cases he
      rfl
  · intro c n fp e he
    rw [extractPythonClass] at he
    cases hn : n.childByFieldName "name" with
    | none => rw [hn] at he; exact absurd he (by simp)
    | some nameNode =>
      rw [hn] at he
      cases he
      rfl
  · intro c n prev fp ety e he
    rw [extractTSFunction] at he
    cases hn : n.childByFieldName "name" with
    | none => rw [hn] at he; exact absurd he (by simp)
    | some nameNode =>
      rw [hn] at he
      cases he
      rfl
  · intro c n prev fp e he
    rw [extractTSClass] at he
    cases hn : n.childByFieldName "name" with
    | none => rw [hn] at he; exact absurd he (by simp)
    | some nameNode =>
      rw [hn] at he
      cases he
      rfl
  · intro c n prev fp e he
    rw [extractTSMethod] at he
    cases hn : n.childByFieldName "name" with
    | none => rw [hn] at he; exact absurd he (by simp)
    | some nameNode =>
      rw [hn] at he
      cases he
      rfl
  · intro c n prev fp e he
    rw [extractJavaMethod] at he
    cases hn : n.childByFieldName "name" with
    | none => rw [hn] at he; exact absurd he (by simp)
    | some nameNode =>
      rw [hn] at he
      cases he
      rfl
  · intro c n prev fp ety e he
    rw [extractJavaClass] at he
    cases hn : n.childByFieldName "name" with
    | none => rw [hn] at he; exact absurd he (by simp)
    | some nameNode =>
      rw [hn] at he
      cases he
      rfl
  · intro c n anc prev fp e he
    rw [extractKotlinFunction] at he
    cases hn : n.namedChildren.find? (fun ch => ch.ty = "simple_identifier") with
    | none => rw [hn] at he; exact absurd he (by simp)
    | some nameNode =>
      rw [hn] at he
      cases he
      rfl
  · intro c n prev fp e he
    rw [extractKotlinClass] at he
    cases hn : n.namedChildren.find? (fun ch => ch.ty = "type_identifier") with
    | none => rw [hn] at he; exact absurd he (by simp)
    | some nameNode =>
      rw [hn] at he
      cases he
      rfl

/-- Witness for c2_signature_rules at concrete TypeScript, Kotlin, Go and
Python inputs, covering function, method and class entities. -/
theorem c2_signature_rules_witness :
    getTSSignature exC2tsContent exC2tsFn = goTrimSpace (slice exC2tsContent 0 13) ∧
    getKotlinSignature exC2ktContent exC2ktFn = goTrimSpace (slice exC2ktContent 0 8) ∧
    getKotlinSignature exC2ktClsContent exC2ktCls = goTrimSpace (slice exC2ktClsContent 0 8) ∧
    exC2goEntity.signature = getNodeContent exC2content exC2fn ∧
    exC2pyEntity.signature = firstLineTrimmed (getNodeContent exC2pyContent exC2pyFn) ∧
    exC2pyClsEntity.signature = firstLineTrimmed (getNodeContent exC2pyClsContent exC2pyCls) ∧
    exC2ktEntity.signature = getKotlinSignature exC2ktContent exC2ktFn := by
  obtain ⟨h1, _, _, h4, h5, h6, h7, h8, _, _, _, _, _, h14, _⟩ := c2_signature_rules
  refine ⟨?_, ?_, ?_, ?_, ?_, ?_, ?_⟩
  · exact h1 exC2tsContent exC2tsFn exC2tsBody rfl (by decide)
  · exact h4 exC2ktContent exC2ktFn exC2ktBody rfl (by decide)
  · exact h5 exC2ktClsContent exC2ktCls exC2ktClsBody rfl rfl (by decide)
  · exact h6 exC2content exC2fn none "main.go" "function" exC2goEntity (by decide)
  · exact h7 exC2pyContent exC2pyFn "m.py" "function" exC2pyEntity (by decide)
  · exact h8 exC2pyClsContent exC2pyCls "m.py" exC2pyClsEntity (by decide)
  · exact h14 exC2ktContent exC2ktFn [] none "k.kt" exC2ktEntity (by decide)

/-- C9: a Python function whose body block starts with a string-literal
expression statement records that string literal, quotes stripped and
trimmed, as the docstring — not the preceding comment, whatever comment
node stands before the function. -/
theorem c9_python_docstring (c : Content) (n body firstChild expr : TSNode)
    (prev : Option TSNode) (fp ety : String) (e : CodeEntity)
    (hb : n.childByFieldName "body" = some body) (hblk : body.ty = "block")
    (hfc : body.namedChildren.head? = some firstChild)
    (hfty : firstChild.ty = "expression_statement")
    (hex : firstChild.namedChildren.head? = some expr) (hsty : expr.ty = "string")
    (he : extractPythonFunction c n fp ety = some e) :
    e.docstring = goTrimSpace (stripQuotes (getNodeContent c expr)) ∧
    (getPrecedingComment c prev ≠ goTrimSpace (stripQuotes (getNodeContent c expr)) →
      e.docstring ≠ getPrecedingComment c prev) := by
  have hdoc : getPythonDocstring c n = goTrimSpace (stripQuotes (getNodeContent c expr)) := by
    rw [getPythonDocstring]
    simp only [hb, hblk, hfc, hfty, hex, hsty, if_true]
  have hdocs : e.docstring = goTrimSpace (stripQuotes (getNodeContent c expr)) := by
    rw [extractPythonFunction] at he
    cases hn : n.childByFieldName "name" with
    | none => rw [hn] at he; exact absurd he (by simp)
    | some nameNode =>
      rw [hn] at he
      cases he
      exact hdoc
  exact ⟨hdocs, fun hne => by rw [hdocs]; exact fun hcon => hne hcon.symm⟩

/-- Witness for c9_python_docstring on a Python function carrying both a
preceding comment and a leading string literal. -/
theorem c9_witness :
    exC9entity.docstring = goTrimSpace (stripQuotes (getNodeContent exC9content exC9str)) ∧
    exC9entity.docstring ≠ getPrecedingComment exC9content (some exC9prev) := by
  have h := c9_python_docstring exC9content exC9fn exC9body exC9expr exC9str (some exC9prev)
    "t.py" "function" exC9entity rfl rfl rfl rfl rfl rfl (by decide)
  exact ⟨h.1, h.2 (by decide)⟩

/-- mergeEdge leaves the node list unchanged. -/
theorem mergeEdge_nodes (g : Graph) (e : GEdge) : (mergeEdge g e).nodes = g.nodes := by
  rw [mergeEdge]; split <;> rfl

/-- Folding mergeEdge leaves the node list unchanged. -/
theorem foldl_mergeEdge_nodes : ∀ (es : List GEdge) (g : Graph),
    (es.foldl mergeEdge g).nodes = g.nodes
  | [], _ => rfl
  | e :: es, g => by
    rw [List.foldl_cons, foldl_mergeEdge_nodes es, mergeEdge_nodes]

/-- An edge present after mergeEdge was present before or is the merged one. -/
theorem mem_mergeEdge (g : Graph) (e ed : GEdge) (h : ed ∈ (mergeEdge g e).edges) :
    ed ∈ g.edges ∨ ed = e := by
  rw [mergeEdge] at h
  split at h
  · exact Or.inl h
  · rcases List.mem_append.mp h with h | h
    · exact Or.inl h
    · exact Or.inr (List.mem_singleton.mp h)

/-- mergeEdge keeps every existing edge. -/
theorem mergeEdge_sub (g : Graph) (e : GEdge) : g.edges ⊆ (mergeEdge g e).edges := by
  intro x hx
  rw [mergeEdge]
  split
  · exact hx
  · exact List.mem_append_left _ hx

/-- After mergeEdge the merged edge is present. -/
theorem mem_mergeEdge_self (g : Graph) (e : GEdge) : e ∈ (mergeEdge g e).edges := by
  rw [mergeEdge]
  split
  · assumption
  · exact List.mem_append_right _ (List.mem_singleton.mpr rfl)

/-- Folding mergeEdge keeps every existing edge. -/
theorem foldl_mergeEdge_sub : ∀ (es : List GEdge) (g : Graph),
    g.edges ⊆ (es.foldl mergeEdge g).edges
  | [], _ => fun _ h => h
  | e :: es, g => fun _x hx => foldl_mergeEdge_sub es (mergeEdge g e) (mergeEdge_sub g e hx)

/-- An edge present after folding mergeEdge was present before or is among
the merged ones. -/
theorem mem_foldl_mergeEdge : ∀ (es : List GEdge) (g : Graph) (ed : GEdge),
    ed ∈ (es.foldl mergeEdge g).edges → ed ∈ g.edges ∨ ed ∈ es
  | [], _, _ => fun h => Or.inl h
  | e :: es, g, ed => fun h => by
    rcases mem_foldl_mergeEdge es (mergeEdge g e) ed h with h | h
    · rcases mem_mergeEdge g e ed h with h | h
      · exact Or.inl h
      · exact Or.inr (h ▸ List.mem_cons_self e es)
    · exact Or.inr (List.mem_cons_of_mem _ h)

/-- Folding mergeEdge makes every listed edge present. -/
theorem foldl_mergeEdge_mem : ∀ (es : List GEdge) (g : Graph) (e : GEdge), e ∈ es →
    e ∈ (es.foldl mergeEdge g).edges
  | [], _, _, h => absurd h (List.not_mem_nil _)
  | e' :: es, g, e, h => by
    rcases List.mem_cons.mp h with rfl | h
    · exact foldl_mergeEdge_sub es (mergeEdge g e) (mem_mergeEdge_self g e)
    · exact foldl_mergeEdge_mem es (mergeEdge g e') e h

/-- callersFor reads only the node list. -/
theorem callersFor_congr (g1 g2 : Graph) (h : g1.nodes = g2.nodes) (nm fp : String) :
    callersFor g1 nm fp = callersFor g2 nm fp := by
  rw [callersFor, callersFor, h]

/-- calleesFor reads only the node list. -/
theorem calleesFor_congr (g1 g2 : Graph) (h : g1.nodes = g2.nodes) (nm rid : String) :
    calleesFor g1 nm rid = calleesFor g2 nm rid := by
  rw [calleesFor, calleesFor, h]

/-- callEdges reads only the node list. -/
theorem callEdges_congr (g1 g2 : Graph) (h : g1.nodes = g2.nodes) (n1 fp n2 : String) :
    callEdges g1 n1 fp n2 = callEdges g2 n1 fp n2 := by
  rw [callEdges, callEdges, callersFor_congr g1 g2 h]
  apply List.flatMap_congr
  intro caller _
  rw [calleesFor_congr g1 g2 h]

/-- Membership in callEdges: a caller and a callee matched by the two
patterns. -/
theorem mem_callEdges (g : Graph) (n1 fp n2 : String) (ed : GEdge) :
    ed ∈ callEdges g n1 fp n2 ↔ ∃ caller ∈ callersFor g n1 fp,
      ∃ callee ∈ calleesFor g n2 caller.repoId, ed = GEdge.mk caller.id callee.id "CALLS" := by
  simp only [callEdges, List.mem_flatMap, List.mem_map]
  constructor
  · rintro ⟨caller, hc, callee, he, rfl⟩
    exact ⟨caller, hc, callee, he, rfl⟩
  · rintro ⟨caller, hc, callee, he, rfl⟩
    exact ⟨caller, hc, callee, he, rfl⟩

/-- Membership in the caller pattern. -/
theorem mem_callersFor (g : Graph) (nm fp : String) (x : GNode) :
    x ∈ callersFor g nm fp ↔
      x ∈ g.nodes ∧ isFnOrMethod x = true ∧ x.name = nm ∧ x.filePath = fp := by
  simp [callersFor, List.mem_filter]

/-- Membership in the callee pattern. -/
theorem mem_calleesFor (g : Graph) (nm rid : String) (x : GNode) :
    x ∈ calleesFor g nm rid ↔
      x ∈ g.nodes ∧ isFnOrMethod x = true ∧ x.name = nm ∧ x.repoId = rid := by
  simp [calleesFor, List.mem_filter]

/-- wcrStep leaves the node list unchanged. -/
theorem wcrStep_nodes (n1 fp : String) (acc : Graph) (nm : String) :
    (wcrStep n1 fp acc nm).nodes = acc.nodes :=
  foldl_mergeEdge_nodes _ acc

/-- Folding wcrStep leaves the node list unchanged. -/
theorem foldl_wcrStep_nodes (n1 fp : String) : ∀ (nms : List String) (acc : Graph),
    (nms.foldl (wcrStep n1 fp) acc).nodes = acc.nodes
  | [], _ => rfl
  | nm :: nms, acc => by
    rw [List.foldl_cons, foldl_wcrStep_nodes n1 fp nms, wcrStep_nodes]

/-- Folding wcrStep keeps every existing edge. -/
theorem foldl_wcrStep_sub (n1 fp : String) : ∀ (nms : List String) (acc : Graph),
    acc.edges ⊆ (nms.foldl (wcrStep n1 fp) acc).edges
  | [], _ => fun _ h => h
  | nm :: nms, acc => fun _x hx =>
    foldl_wcrStep_sub n1 fp nms (wcrStep n1 fp acc nm) (foldl_mergeEdge_sub _ acc hx)

/-- An edge present after folding wcrStep was present before or belongs to
the call edges of one of the processed names, computed over the original
node list. -/
theorem foldl_wcrStep_sound (n1 fp : String) (G : Graph) :
    ∀ (nms : List String) (acc : Graph), acc.nodes = G.nodes →
    ∀ ed ∈ (nms.foldl (wcrStep n1 fp) acc).edges,
      ed ∈ acc.edges ∨ ∃ nm ∈ nms, ed ∈ callEdges G n1 fp nm
  | [], _, _, ed, hed => Or.inl hed
  | nm :: nms, acc, hacc, ed, hed => by
    have hnodes : (wcrStep n1 fp acc nm).nodes = G.nodes := by
      rw [wcrStep_nodes]; exact hacc
    rcases foldl_wcrStep_sound n1 fp G nms (wcrStep n1 fp acc nm) hnodes ed hed with
      h | ⟨nm', hnm', h⟩
    · rcases mem_foldl_mergeEdge _ acc ed h with h | h
      · exact Or.inl h
      · right
        refine ⟨nm, List.mem_cons_self nm nms, ?_⟩
        rw [← callEdges_congr acc G hacc]
        exact h
    · exact Or.inr ⟨nm', List.mem_cons_of_mem _ hnm', h⟩

/-- Folding wcrStep makes every call edge of every processed name present. -/
theorem foldl_wcrStep_complete (n1 fp : String) (G : Graph) :
    ∀ (nms : List String) (acc : Graph), acc.nodes = G.nodes →
    ∀ nm ∈ nms, ∀ ed ∈ callEdges G n1 fp nm,
      ed ∈ (nms.foldl (wcrStep n1 fp) acc).edges := by
  intro nms
  induction nms with
  | nil => intro acc hacc nm hnm; exact absurd hnm (List.not_mem_nil nm)
  | cons nm' nms ih =>
    intro acc hacc nm hnm ed hed
    rw [List.foldl_cons]
    rcases List.mem_cons.mp hnm with rfl | hnm
    · apply foldl_wcrStep_sub n1 fp nms (wcrStep n1 fp acc nm)
      rw [wcrStep]
      apply foldl_mergeEdge_mem
      rw [callEdges_congr acc G hacc]
      exact hed
    · have hnodes : (wcrStep n1 fp acc nm').nodes = G.nodes := by
        rw [wcrStep_nodes]; exact hacc
      exact ih (wcrStep n1 fp acc nm') hnodes nm hnm ed hed

/-- C3: writing an entity's calls changes no node; every added edge is a
CALLS edge from a Function or Method matching the entity's name and file
path to a Function or Method of the same repository carrying one of the
entity's call names; every such pair receives its edge; and no added edge
connects nodes of different repositories. -/
theorem c3_write_call_relationships (g : Graph) (ent : CodeEntity)
    (hids : (g.nodes.map GNode.id).Nodup) :
    (writeCallRelationships g ent).nodes = g.nodes ∧
    (∀ ed ∈ (writeCallRelationships g ent).edges, ed ∉ g.edges →
      ∃ caller ∈ g.nodes, ∃ callee ∈ g.nodes,
        ed = GEdge.mk caller.id callee.id "CALLS" ∧
        isFnOrMethod caller = true ∧ isFnOrMethod callee = true ∧
        caller.name = ent.name ∧ caller.filePath = ent.filePath ∧
        callee.name ∈ ent.calls ∧ callee.repoId = caller.repoId) ∧
    (∀ nm ∈ ent.calls, ∀ caller ∈ g.nodes, ∀ callee ∈ g.nodes,
      isFnOrMethod caller = true → caller.name = ent.name → caller.filePath = ent.filePath →
      isFnOrMethod callee = true → callee.name = nm → callee.repoId = caller.repoId →
      GEdge.mk caller.id callee.id "CALLS" ∈ (writeCallRelationships g ent).edges) ∧
    (∀ ed ∈ (writeCallRelationships g ent).edges, ed ∉ g.edges →
      ∀ a ∈ g.nodes, ∀ b ∈ g.nodes, a.id = ed.src → b.id = ed.tgt → a.repoId = b.repoId) := by
  have hnodes : (writeCallRelationships g ent).nodes = g.nodes :=
    foldl_wcrStep_nodes ent.name ent.filePath ent.calls g
  have hsound : ∀ ed ∈ (writeCallRelationships g ent).edges, ed ∉ g.edges →
      ∃ caller ∈ g.nodes, ∃ callee ∈ g.nodes,
        ed = GEdge.mk caller.id callee.id "CALLS" ∧
        isFnOrMethod caller = true ∧ isFnOrMethod callee = true ∧
        caller.name = ent.name ∧ caller.filePath = ent.filePath ∧
        callee.name ∈ ent.calls ∧ callee.repoId = caller.repoId := by
    intro ed hed hnew
    rcases foldl_wcrStep_sound ent.name ent.filePath g ent.calls g rfl ed hed with h | ⟨nm, hnm, h⟩
    · exact absurd h hnew
    · rcases (mem_callEdges g ent.name ent.filePath nm ed).mp h with
        ⟨caller, hc, callee, he, rfl⟩
      rcases (mem_callersFor g ent.name ent.filePath caller).mp hc with ⟨hcm, hcf, hcn, hcp⟩
      rcases (mem_calleesFor g nm caller.repoId callee).mp he with ⟨hem, hef, hen, her⟩
      exact ⟨caller, hcm, callee, hem, rfl, hcf, hef, hcn, hcp, hen ▸ hnm, her⟩
  refine ⟨hnodes, hsound, ?_, ?_⟩
  · intro nm hnm caller hcm callee hem hcf hcn hcp hef hen her
    apply foldl_wcrStep_complete ent.name ent.filePath g ent.calls g rfl nm hnm
    rw [mem_callEdges g ent.name ent.filePath nm]
    refine ⟨caller, (mem_callersFor g ent.name ent.filePath caller).mpr ⟨hcm, hcf, hcn, hcp⟩,
      callee, (mem_calleesFor g nm caller.repoId callee).mpr ⟨hem, hef, hen, her⟩, rfl⟩
  · intro ed hed hnew a ham b hbm haid hbid
    rcases hsound ed hed hnew with ⟨caller, hcm, callee, hem, rfl, _, _, _, _, _, her⟩
    have ha : a = caller := List.inj_on_of_nodup_map hids ham hcm haid
    have hb : b = callee := List.inj_on_of_nodup_map hids hbm hem hbid
    rw [ha, hb, her]

/-- Witness for c3_write_call_relationships on a two-node graph: the node
list is unchanged and the matched CALLS edge is created. -/
theorem c3_witness :
    (writeCallRelationships exC3graph exC3ent).nodes = exC3graph.nodes ∧
    GEdge.mk "n1" "n2" "CALLS" ∈ (writeCallRelationships exC3graph exC3ent).edges := by
  have h := c3_write_call_relationships exC3graph exC3ent (by decide)
  refine ⟨h.1, ?_⟩
  have := h.2.2.1 "helper" (by decide) exC3caller (by decide) exC3callee (by decide)
    (by decide) (by decide) (by decide) (by decide) (by decide) (by decide)
  exact this

/-- The Go function extractor stamps the requested entity type. -/
theorem extractGoFunction_type (c : Content) (n : TSNode) (prev : Option TSNode)
    (fp ety : String) (e : CodeEntity) (h : extractGoFunction c n prev fp ety = some e) :
    e.type = ety := by
  rw [extractGoFunction] at h
  cases hn : n.childByFieldName "name" with
  | none => rw [hn] at h; exact absurd h (by simp)
  | some nameNode => rw [hn] at h; cases h; rfl

/-- The Python function extractor stamps the requested entity type. -/
theorem extractPythonFunction_type (c : Content) (n : TSNode)
    (fp ety : String) (e : CodeEntity) (h : extractPythonFunction c n fp ety = some e) :
    e.type = ety := by
  rw [extractPythonFunction] at h
  cases hn : n.childByFieldName "name" with
  | none => rw [hn] at h; exact absurd h (by simp)
  | some nameNode => rw [hn] at h; cases h; rfl

/-- The TypeScript function extractor stamps the requested entity type. -/
theorem extractTSFunction_type (c : Content) (n : TSNode) (prev : Option TSNode)
    (fp ety : String) (e : CodeEntity) (h : extractTSFunction c n prev fp ety = some e) :
    e.type = ety := by
  rw [extractTSFunction] at h
  cases hn : n.childByFieldName "name" with
  | none => rw [hn] at h; exact absurd h (by simp)
  | some nameNode => rw [hn] at h; cases h; rfl

/-- The TypeScript method extractor stamps the method type. -/
theorem extractTSMethod_type (c : Content) (n : TSNode) (prev : Option TSNode)
    (fp : String) (e : CodeEntity) (h : extractTSMethod c n prev fp = some e) :
    e.type = "method" := by
  rw [extractTSMethod] at h
  cases hn : n.childByFieldName "name" with
  | none => rw [hn] at h; exact absurd h (by simp)
  | some nameNode => rw [hn] at h; cases h; rfl

/-- The Java method extractor stamps the method type. -/
theorem extractJavaMethod_type (c : Content) (n : TSNode) (prev : Option TSNode)
    (fp : String) (e : CodeEntity) (h : extractJavaMethod c n prev fp = some e) :
    e.type = "method" := by
  rw [extractJavaMethod] at h
  cases hn : n.childByFieldName "name" with
  | none => rw [hn] at h; exact absurd h (by simp)
  | some nameNode => rw [hn] at h; cases h; rfl

/-- The Kotlin function extractor stamps function or method, never class. -/
theorem extractKotlinFunction_type_ne (c : Content) (n : TSNode) (anc : List String)
    (prev : Option TSNode) (fp : String) (e : CodeEntity)
    (h : extractKotlinFunction c n anc prev fp = some e) : e.type ≠ "class" := by
  rw [extractKotlinFunction] at h
  cases hn : n.namedChildren.find? (fun ch => ch.ty = "simple_identifier") with
  | none => rw [hn] at h; exact absurd h (by simp)
  | some nameNode =>
    rw [hn] at h
    cases h
    by_cases hm : anc.any (fun a => a = "class_declaration" ∨ a = "class_body") = true
    · simp only [hm, if_true]; decide
    · simp only [hm, if_false]; decide

/-- The Go struct extractor records no calls. -/
theorem extractGoStruct_calls (c : Content) (dn ts : TSNode) (prev : Option TSNode)
    (fp : String) (e : CodeEntity) (h : extractGoStruct c dn ts prev fp = some e) :
    e.calls = [] := by
  rw [extractGoStruct] at h
  cases hn : ts.namedChildren.find? (fun ch => ch.ty = "type_identifier") with
  | none => rw [hn] at h; exact absurd h (by simp)
  | some nameNode => rw [hn] at h; cases h; rfl

/-- The Python class extractor records no calls. -/
theorem extractPythonClass_calls (c : Content) (n : TSNode) (fp : String) (e : CodeEntity)
    (h : extractPythonClass c n fp = some e) : e.calls = [] := by
  rw [extractPythonClass] at h
  cases hn : n.childByFieldName "name" with
  | none => rw [hn] at h; exact absurd h (by simp)
  | some nameNode => rw [hn] at h; cases h; rfl

/-- The TypeScript class extractor records no calls. -/
theorem extractTSClass_calls (c : Content) (n : TSNode) (prev : Option TSNode)
    (fp : String) (e : CodeEntity) (h : extractTSClass c n prev fp = some e) :
    e.calls = [] := by
  rw [extractTSClass] at h
  cases hn : n.childByFieldName "name" with
  | none => rw [hn] at h; exact absurd h (by simp)
  | some nameNode => rw [hn] at h; cases h; rfl

/-- The Java class extractor records no calls. -/
theorem extractJavaClass_calls (c : Content) (n : TSNode) (prev : Option TSNode)
    (fp ety : String) (e : CodeEntity) (h : extractJavaClass c n prev fp ety = some e) :
    e.calls = [] := by
  rw [extractJavaClass] at h
  cases hn : n.childByFieldName "name" with
  | none => rw [hn] at h; exact absurd h (by simp)
  | some nameNode => rw [hn] at h; cases h; rfl

/-- The Kotlin class extractor records no calls. -/
theorem extractKotlinClass_calls (c : Content) (n : TSNode) (prev : Option TSNode)
    (fp : String) (e : CodeEntity) (h : extractKotlinClass c n prev fp = some e) :
    e.calls = [] := by
  rw [extractKotlinClass] at h
  cases hn : n.namedChildren.find? (fun ch => ch.ty = "type_identifier") with
  | none => rw [hn] at h; exact absurd h (by simp)
  | some nameNode => rw [hn] at h; cases h; rfl

/-- Every entity of the type-declaration case records no calls. -/
theorem goStructEntities_calls (c : Content) (n : TSNode) (prev : Option TSNode)
    (fp : String) (e : CodeEntity) (h : e ∈ goStructEntities c n prev fp) :
    e.calls = [] := by
  rw [goStructEntities] at h
  rcases List.mem_flatMap.mp h with ⟨child, _, hmem⟩
  cases hgs : extractGoStruct c n child prev fp with
  | none => rw [hgs] at hmem; exact absurd hmem (List.not_mem_nil e)
  | some e' =>
    rw [hgs] at hmem
    have he : e = e' := by simpa using hmem
    exact he ▸ extractGoStruct_calls c n child prev fp e' hgs

/-- C10: class entities never carry calls — in every supported language the
class extractors record an empty calls list — and the call-relationship
write only ever uses Function or Method nodes as edge sources. -/
theorem c10_class_entities :
    (∀ (c : Content) (root : TSNode) (fp : String), ∀ e ∈ extractGo c root fp,
      e.type = "class" → e.calls = []) ∧
    (∀ (c : Content) (root : TSNode) (fp : String), ∀ e ∈ extractPython c root fp,
      e.type = "class" → e.calls = []) ∧
    (∀ (c : Content) (root : TSNode) (fp : String), ∀ e ∈ extractTypeScript c root fp,
      e.type = "class" → e.calls = []) ∧
    (∀ (c : Content) (root : TSNode) (fp : String), ∀ e ∈ extractJava c root fp,
      e.type = "class" → e.calls = []) ∧
    (∀ (c : Content) (root : TSNode) (fp : String), ∀ e ∈ extractKotlin c root fp,
      e.type = "class" → e.calls = []) ∧
    (∀ (g : Graph) (ent : CodeEntity), (g.nodes.map GNode.id).Nodup →
      ∀ ed ∈ (writeCallRelationships g ent).edges, ed ∉ g.edges →
        ∀ a ∈ g.nodes, a.id = ed.src → isFnOrMethod a = true) := by
  refine ⟨?_, ?_, ?_, ?_, ?_, ?_⟩
  · intro c root fp e he hclass
    rw [extractGo] at he
    rcases List.mem_flatMap.mp he with ⟨⟨anc, prev, n⟩, _, hmem⟩
    rw [goEntitiesAt] at hmem
    split at hmem
    · cases hgf : extractGoFunction c n prev fp "function" with
      | none => rw [hgf] at hmem; exact absurd hmem (List.not_mem_nil e)
      | some e' =>
        rw [hgf] at hmem
        have he' : e = e' := by simpa using hmem
        have := extractGoFunction_type c n prev fp "function" e' hgf
        rw [← he', hclass] at this
        exact absurd this (by decide)
    · split at hmem
      · cases hgf : extractGoFunction c n prev fp "method" with
        | none => rw [hgf] at hmem; exact absurd hmem (List.not_mem_nil e)
        | some e' =>
          rw [hgf] at hmem
          have he' : e = e' := by simpa using hmem
          have := extractGoFunction_type c n prev fp "method" e' hgf
          rw [← he', hclass] at this
          exact absurd this (by decide)
      · split at hmem
        · exact goStructEntities_calls c n prev fp e hmem
        · exact absurd hmem (List.not_mem_nil e)
  · intro c root fp e he hclass
    rw [extractPython] at he
    rcases List.mem_flatMap.mp he with ⟨⟨anc, prev, n⟩, _, hmem⟩
    rw [pyEntitiesAt] at hmem
    split at hmem
    · simp only [] at hmem
      cases hgf : extractPythonFunction c n fp
        (if "class_definition" ∈ anc then "method" else "function") with
      | none => rw [hgf] at hmem; exact absurd hmem (List.not_mem_nil e)
      | some e' =>
        rw [hgf] at hmem
        have he' : e = e' := by simpa using hmem
        have := extractPythonFunction_type c n fp _ e' hgf
        rw [← he', hclass] at this
        by_cases hm : "class_definition" ∈ anc
        · rw [if_pos hm] at this; exact absurd this (by decide)
        · rw [if_neg hm] at this; exact absurd this (by decide)
    · split at hmem
      · cases hgc : extractPythonClass c n fp with
        | none => rw [hgc] at hmem; exact absurd hmem (List.not_mem_nil e)
        | some e' =>
          rw [hgc] at hmem
          have he' : e = e' := by simpa using hmem
          exact he' ▸ extractPythonClass_calls c n fp e' hgc
      · exact absurd hmem (List.not_mem_nil e)
  · intro c root fp e he hclass
    rw [extractTypeScript] at he
    rcases List.mem_flatMap.mp he with ⟨⟨anc, prev, n⟩, _, hmem⟩
    rw [tsEntitiesAt] at hmem
    split at hmem
    · cases hgf : extractTSFunction c n prev fp "function" with
      | none => rw [hgf] at hmem; exact absurd hmem (List.not_mem_nil e)
      | some e' =>
        rw [hgf] at hmem
        have he' : e = e' := by simpa using hmem
        have := extractTSFunction_type c n prev fp "function" e' hgf
        rw [← he', hclass] at this
        exact absurd this (by decide)
    · split at hmem
      · cases hgc : extractTSClass c n prev fp with
        | none => rw [hgc] at hmem; exact absurd hmem (List.not_mem_nil e)
        | some e' =>
          rw [hgc] at hmem
          have he' : e = e' := by simpa using hmem
          exact he' ▸ extractTSClass_calls c n prev fp e' hgc
      · split at hmem
        · cases hgm : extractTSMethod c n prev fp with
          | none => rw [hgm] at hmem; exact absurd hmem (List.not_mem_nil e)
          | some e' =>
            rw [hgm] at hmem
            have he' : e = e' := by simpa using hmem
            have := extractTSMethod_type c n prev fp e' hgm
            rw [← he', hclass] at this
            exact absurd this (by decide)
        · exact absurd hmem (List.not_mem_nil e)
  · intro c root fp e he hclass
    rw [extractJava] at he
    rcases List.mem_flatMap.mp he with ⟨⟨anc, prev, n⟩, _, hmem⟩
    rw [javaEntitiesAt] at hmem
    split at hmem
    · cases hgm : extractJavaMethod c n prev fp with
      | none => rw [hgm] at hmem; exact absurd hmem (List.not_mem_nil e)
      | some e' =>
        rw [hgm] at hmem
        have he' : e = e' := by simpa using hmem
        have := extractJavaMethod_type c n prev fp e' hgm
        rw [← he', hclass] at this
        exact absurd this (by decide)
    · split at hmem
      · cases hgc : extractJavaClass c n prev fp "class" with
        | none => rw [hgc] at hmem; exact absurd hmem (List.not_mem_nil e)
        | some e' =>
          rw [hgc] at hmem
          have he' : e = e' := by simpa using hmem
          exact he' ▸ extractJavaClass_calls c n prev fp "class" e' hgc
      · split at hmem
        · cases hgc : extractJavaClass c n prev fp "interface" with
          | none => rw [hgc] at hmem; exact absurd hmem (List.not_mem_nil e)
          | some e' =>
            rw [hgc] at hmem
            have he' : e = e' := by simpa using hmem
            exact he' ▸ extractJavaClass_calls c n prev fp "interface" e' hgc
        · exact absurd hmem (List.not_mem_nil e)
  · intro c root fp e he hclass
    rw [extractKotlin] at he
    rcases List.mem_flatMap.mp he with ⟨⟨anc, prev, n⟩, _, hmem⟩
    rw [kotlinEntitiesAt] at hmem
    split at hmem
    · cases hgf : extractKotlinFunction c n anc prev fp with
      | none => rw [hgf] at hmem; exact absurd hmem (List.not_mem_nil e)
      | some e' =>
        rw [hgf] at hmem
        have he' : e = e' := by simpa using hmem
        have := extractKotlinFunction_type_ne c n anc prev fp e' hgf
        exact absurd (he' ▸ hclass) this
    · split at hmem
      · cases hgc : extractKotlinClass c n prev fp with
        | none => rw [hgc] at hmem; exact absurd hmem (List.not_mem_nil e)
        | some e' =>
          rw [hgc] at hmem
          have he' : e = e' := by simpa using hmem
          exact he' ▸ extractKotlinClass_calls c n prev fp e' hgc
      · exact absurd hmem (List.not_mem_nil e)
  · intro g ent hids ed hed hnew a ham haid
    rcases foldl_wcrStep_sound ent.name ent.filePath g ent.calls g rfl ed hed with
      h | ⟨nm, _, h⟩
    · exact absurd h hnew
    · rcases (mem_callEdges g ent.name ent.filePath nm ed).mp h with
        ⟨caller, hc, callee, _, rfl⟩
      rcases (mem_callersFor g ent.name ent.filePath caller).mp hc with ⟨hcm, hcf, _, _⟩
      have ha : a = caller := List.inj_on_of_nodup_map hids ham hcm haid
      rw [ha]
      exact hcf

/-- Folding indexStep counts the succeeding jobs, collects their file
records and entities, and turns every failing job into one path-prefixed
error string. -/
theorem foldl_indexStep (jobs : List FileJob) : ∀ r0 : IndexResult,
    jobs.foldl indexStep r0 =
      { repoID := r0.repoID
        filesProcessed := r0.filesProcessed + (jobs.filter (fun j => j.2.isOk)).length
        entitiesFound := r0.entitiesFound + (jobs.flatMap (fun j => match j.2 with
          | .ok (_, es) => es | .error _ => [])).length
        errors := r0.errors ++ jobs.filterMap (fun j => match j.2 with
          | .error m => some (j.1 ++ ": " ++ m) | .ok _ => none)
        files := r0.files ++ jobs.filterMap (fun j => match j.2 with
          | .ok (f, _) => some f | .error _ => none)
        entities := r0.entities ++ jobs.flatMap (fun j => match j.2 with
          | .ok (_, es) => es | .error _ => []) } := by
  induction jobs with
  | nil => intro r0; simp
  | cons j jobs ih =>
    obtain ⟨p, out⟩ := j
    intro r0
    rw [List.foldl_cons]
    cases out with
    | error m =>
      rw [ih]
      simp [indexStep, Except.isOk, Except.toBool, List.filter_cons]
    | ok fe =>
      obtain ⟨f, es⟩ := fe
      rw [ih]
      simp [indexStep, Except.isOk, Except.toBool, List.filter_cons]
      omega

/-- The error list is as long as the list of failing jobs. -/
theorem indexErrors_length (jobs : List FileJob) :
    (jobs.filterMap (fun j => match j.2 with
      | .error m => some (j.1 ++ ": " ++ m) | .ok _ => none)).length
      = (jobs.filter (fun j => !j.2.isOk)).length := by
  induction jobs with
  | nil => rfl
  | cons j jobs ih =>
    obtain ⟨p, out⟩ := j
    cases out with
    | error m => simpa [Except.isOk, Except.toBool, List.filter_cons] using ih
    | ok fe => simpa [Except.isOk, Except.toBool, List.filter_cons] using ih

/-- The file list is as long as the list of succeeding jobs. -/
theorem indexFiles_length (jobs : List FileJob) :
    (jobs.filterMap (fun j => match j.2 with
      | .ok (f, _) => some f | .error _ => none)).length
      = (jobs.filter (fun j => j.2.isOk)).length := by
  induction jobs with
  | nil => rfl
  | cons j jobs ih =>
    obtain ⟨p, out⟩ := j
    cases out with
    | error m => simpa [Except.isOk, Except.toBool, List.filter_cons] using ih
    | ok fe => obtain ⟨f, es⟩ := fe; simpa [Except.isOk, Except.toBool, List.filter_cons] using ih

/-- Splitting a list by a predicate preserves its length. -/
theorem filter_length_split {α : Type} (p : α → Bool) (l : List α) :
    (l.filter p).length + (l.filter (fun x => !p x)).length = l.length := by
  induction l with
  | nil => rfl
  | cons a l ih =>
    cases hp : p a <;> simp [List.filter_cons, hp] <;> omega

/-- C4: IndexDirectory fails only when the walk fails; on a successful walk
every failing file contributes exactly one path-prefixed error string and no
file record or entities, succeeding files are counted and accumulated, and
with exactly one failing file among N the result carries N-1 processed
files, one error, and no top-level error. -/
theorem c4_index_directory (repoID : String) :
    (∀ msg : String, IndexDirectory repoID (.error msg) =
      .error ("failed to walk directory: " ++ msg)) ∧
    (∀ jobs : List FileJob,
      IndexDirectory repoID (.ok jobs) = .ok
        { repoID := repoID
          filesProcessed := (jobs.filter (fun j => j.2.isOk)).length
          entitiesFound := (jobs.flatMap (fun j => match j.2 with
            | .ok (_, es) => es | .error _ => [])).length
          errors := jobs.filterMap (fun j => match j.2 with
            | .error m => some (j.1 ++ ": " ++ m) | .ok _ => none)
          files := jobs.filterMap (fun j => match j.2 with
            | .ok (f, _) => some f | .error _ => none)
          entities := jobs.flatMap (fun j => match j.2 with
            | .ok (_, es) => es | .error _ => []) }) ∧
    (∀ jobs : List FileJob, (jobs.filter (fun j => !j.2.isOk)).length = 1 →
      ∃ r : IndexResult, IndexDirectory repoID (.ok jobs) = .ok r ∧
        r.filesProcessed = jobs.length - 1 ∧ r.errors.length = 1 ∧
        r.files.length = jobs.length - 1 ∧ 1 ≤ jobs.length) := by
  have hok : ∀ jobs : List FileJob,
      IndexDirectory repoID (.ok jobs) = .ok
        { repoID := repoID
          filesProcessed := (jobs.filter (fun j => j.2.isOk)).length
          entitiesFound := (jobs.flatMap (fun j => match j.2 with
            | .ok (_, es) => es | .error _ => [])).length
          errors := jobs.filterMap (fun j => match j.2 with
            | .error m => some (j.1 ++ ": " ++ m) | .ok _ => none)
          files := jobs.filterMap (fun j => match j.2 with
            | .ok (f, _) => some f | .error _ => none)
          entities := jobs.flatMap (fun j => match j.2 with
            | .ok (_, es) => es | .error _ => []) } := by
    intro jobs
    rw [IndexDirectory, foldl_indexStep]
    simp
  refine ⟨fun msg => rfl, hok, ?_⟩
  intro jobs hone
  refine ⟨_, hok jobs, ?_, ?_, ?_, ?_⟩
  · have := filter_length_split (fun j => j.2.isOk) jobs
    simp only []
    omega
  · simp only [indexErrors_length]
    exact hone
  · have := filter_length_split (fun j => j.2.isOk) jobs
    simp only [indexFiles_length]
    omega
  · have := filter_length_split (fun j => j.2.isOk) jobs
    have h2 := List.length_filter_le (fun j => !j.2.isOk) jobs
    omega

/-- Witness for c4_index_directory: a two-file walk with one failing file
yields one processed file, one error entry, and no top-level error. -/
theorem c4_witness :
    ∃ r : IndexResult, IndexDirectory "r1" (.ok exC4jobs) = .ok r ∧
      r.filesProcessed = exC4jobs.length - 1 ∧ r.errors.length = 1 ∧
      r.files.length = exC4jobs.length - 1 ∧ 1 ≤ exC4jobs.length :=
  (c4_index_directory "r1").2.2 exC4jobs (by decide)

/-- Membership in the contained files of a repository. -/
theorem mem_repoFiles (g : Graph) (repoID : String) (f : GNode) :
    f ∈ repoFiles g repoID ↔ ∃ r, (r ∈ g.nodes ∧ r.label = "Repository" ∧ r.id = repoID) ∧
      f ∈ g.nodes ∧ f.label = "File" ∧ g.hasEdge r.id f.id "CONTAINS" = true := by
  simp [repoFiles, List.mem_flatMap, List.mem_filter, and_assoc]

/-- With unique node ids the contained files of a repository have unique
ids. -/
theorem repoFiles_ids_nodup (g : Graph) (repoID : String)
    (hids : (g.nodes.map GNode.id).Nodup) :
    ((repoFiles g repoID).map GNode.id).Nodup := by
  rw [repoFiles]
  have hnodes : g.nodes.Nodup := List.Nodup.of_map _ hids
  cases hrs : g.nodes.filter (fun n => n.label = "Repository" ∧ n.id = repoID) with
  | nil => simp
  | cons r1 rest =>
    cases rest with
    | nil =>
      simp only [List.flatMap_cons, List.flatMap_nil, List.append_nil]
      exact hids.sublist ((List.filter_sublist _).map GNode.id)
    | cons r2 rest2 =>
      exfalso
      have h1 : r1 ∈ g.nodes.filter (fun n => n.label = "Repository" ∧ n.id = repoID) := by
        rw [hrs]; exact List.mem_cons_self _ _
      have h2 : r2 ∈ g.nodes.filter (fun n => n.label = "Repository" ∧ n.id = repoID) := by
        rw [hrs]; exact List.mem_cons_of_mem _ (List.mem_cons_self _ _)
      have hm1 := List.mem_filter.mp h1
      have hm2 := List.mem_filter.mp h2
      have hid1 : r1.id = repoID := by
        have := hm1.2; simp at this; exact this.2
      have hid2 : r2.id = repoID := by
        have := hm2.2; simp at this; exact this.2
      have heq : r1 = r2 :=
        List.inj_on_of_nodup_map hids hm1.1 hm2.1 (by rw [hid1, hid2])
      have hnd : (g.nodes.filter (fun n => n.label = "Repository" ∧ n.id = repoID)).Nodup :=
        hnodes.filter _
      rw [hrs] at hnd
      rcases List.nodup_cons.mp hnd with ⟨hnotin, _⟩
      exact hnotin (heq ▸ List.mem_cons_self r2 rest2)

/-- C5: the file tree has one row per contained File node, each row carries
that file's id, path and language together with exactly its declared
Function and Method entities in ascending start-line order, and a repository
with no files yields the empty list. -/
theorem c5_get_file_tree (g : Graph) (repoID : String)
    (hids : (g.nodes.map GNode.id).Nodup) :
    ((getFileTree g repoID).map FileNode.id).Nodup ∧
    (∀ fl ∈ getFileTree g repoID, ∃ f ∈ repoFiles g repoID,
      fl.id = f.id ∧ fl.path = f.path ∧ fl.language = f.language ∧
      List.Pairwise (fun a b => a.startLine ≤ b.startLine) fl.functions ∧
      (∀ fr ∈ fl.functions, ∃ n ∈ declaredFns g f,
        fr = FunctionRef.mk n.id n.name n.signature n.startLine n.endLine) ∧
      (∀ n ∈ declaredFns g f,
        FunctionRef.mk n.id n.name n.signature n.startLine n.endLine ∈ fl.functions)) ∧
    (∀ f ∈ repoFiles g repoID, ∃ fl ∈ getFileTree g repoID, fl.id = f.id) ∧
    (repoFiles g repoID = [] → getFileTree g repoID = []) := by
  refine ⟨?_, ?_, ?_, ?_⟩
  · rw [getFileTree, List.map_map]
    have hperm := (List.perm_insertionSort pathLE (repoFiles g repoID)).map GNode.id
    have : (FileNode.id ∘ fun f => FileNode.mk f.id f.path f.language
        ((List.insertionSort lineLE (declaredFns g f)).map (fun n =>
          FunctionRef.mk n.id n.name n.signature n.startLine n.endLine))) = GNode.id := rfl
    rw [this]
    exact hperm.nodup_iff.mpr (repoFiles_ids_nodup g repoID hids)
  · intro fl hfl
    rw [getFileTree] at hfl
    rcases List.mem_map.mp hfl with ⟨f, hf, rfl⟩
    have hfmem : f ∈ repoFiles g repoID := (List.mem_insertionSort pathLE).mp hf
    refine ⟨f, hfmem, rfl, rfl, rfl, ?_, ?_, ?_⟩
    · have hsorted := List.sorted_insertionSort lineLE (declaredFns g f)
      exact List.Pairwise.map _ (fun a b hab => hab) hsorted
    · intro fr hfr
      rcases List.mem_map.mp hfr with ⟨n, hn, rfl⟩
      exact ⟨n, (List.mem_insertionSort lineLE).mp hn, rfl⟩
    · intro n hn
      exact List.mem_map.mpr ⟨n, (List.mem_insertionSort lineLE).mpr hn, rfl⟩
  · intro f hf
    refine ⟨FileNode.mk f.id f.path f.language
      ((List.insertionSort lineLE (declaredFns g f)).map (fun n =>
        FunctionRef.mk n.id n.name n.signature n.startLine n.endLine)), ?_, rfl⟩
    rw [getFileTree]
    exact List.mem_map.mpr ⟨f, (List.mem_insertionSort pathLE).mpr hf, rfl⟩
  · intro h
    rw [getFileTree, h]
    rfl

/-- Witness for c5_get_file_tree on a one-repository graph with one file and
two declared functions. -/
theorem c5_witness :
    (∃ fl ∈ getFileTree exC5graph "r1", fl.id = exC5file.id) ∧
    ((getFileTree exC5graph "r1").map FileNode.id).Nodup := by
  have h := c5_get_file_tree exC5graph "r1" (by decide)
  exact ⟨h.2.2.1 exC5file (by decide), h.1⟩

/-- A failed lookup means the key is on no entry. -/
theorem lookup_none_keys {β : Type} (k : String) : ∀ (m : List (String × β)),
    m.lookup k = none → ∀ p ∈ m, p.1 ≠ k := by
  intro m
  induction m with
  | nil => intro _ p hp; exact absurd hp (List.not_mem_nil p)
  | cons q m ih =>
    intro h p hp
    obtain ⟨qk, qv⟩ := q
    rw [List.lookup_cons] at h
    cases hbeq : (k == qk) with
    | true => rw [hbeq] at h; exact absurd h (by simp)
    | false =>
      rw [hbeq] at h
      rcases List.mem_cons.mp hp with rfl | hp
      · have : k ≠ qk := by simpa using hbeq
        exact fun hc => this hc.symm
      · exact ih h p hp

/-- mapInsert preserves a property holding on every entry when the inserted
entry satisfies it. -/
theorem mapInsert_forall {β : Type} (P : String × β → Prop) (m : List (String × β))
    (k : String) (v : β) (hm : ∀ p ∈ m, P p) (hkv : P (k, v)) :
    ∀ p ∈ mapInsert m k v, P p := by
  intro p hp
  rw [mapInsert] at hp
  split at hp
  · exact hm p hp
  · rcases List.mem_append.mp hp with h | h
    · exact hm p h
    · rw [List.mem_singleton.mp h]; exact hkv

/-- mapInsert keeps the keys unique. -/
theorem mapInsert_keys_nodup {β : Type} (m : List (String × β)) (k : String) (v : β)
    (h : (m.map Prod.fst).Nodup) : ((mapInsert m k v).map Prod.fst).Nodup := by
  rw [mapInsert]
  split
  · exact h
  · rename_i hlk
    have hnone : m.lookup k = none := by
      cases hl : m.lookup k with
      | none => rfl
      | some v' => rw [hl] at hlk; exact absurd rfl hlk
    rw [List.map_append]
    refine List.Nodup.append h (List.nodup_singleton k) ?_
    intro a ha hak
    rcases List.mem_map.mp ha with ⟨p, hp, rfl⟩
    exact lookup_none_keys k m hnone p hp (List.mem_singleton.mp hak)

/-- Values of an id-keyed map whose stored ids match the keys have unique
ids. -/
theorem snd_ids_nodup {β : Type} (proj : β → String) (m : List (String × β))
    (hkeys : (m.map Prod.fst).Nodup) (hid : ∀ p ∈ m, proj p.2 = p.1) :
    ((m.map Prod.snd).map proj).Nodup := by
  rw [List.map_map]
  have : m.map (proj ∘ Prod.snd) = m.map Prod.fst :=
    List.map_congr_left (fun p hp => hid p hp)
  rw [this]
  exact hkeys

/-- One calls-mode row preserves the invariant. -/
theorem stepCalls_inv (acc : List (String × GraphNodeOut) × List (String × GraphEdgeOut))
    (row : GNode × Option GNode) (h : callsInv acc) : callsInv (stepCalls acc row) := by
  obtain ⟨⟨hn1, hn2⟩, he1, he2⟩ := h
  rw [stepCalls]
  have hnm1 : ((mapInsert acc.1 row.1.id (fnNodeOut row.1 true)).map Prod.fst).Nodup :=
    mapInsert_keys_nodup _ _ _ hn1
  have hnm2 : ∀ p ∈ mapInsert acc.1 row.1.id (fnNodeOut row.1 true),
      p.2.id = p.1 ∧ p.2.ty = "Function" :=
    mapInsert_forall _ _ _ _ hn2 ⟨rfl, rfl⟩
  cases row.2 with
  | none => exact ⟨⟨hnm1, hnm2⟩, he1, he2⟩
  | some t =>
    refine ⟨⟨mapInsert_keys_nodup _ _ _ hnm1,
      mapInsert_forall _ _ _ _ hnm2 ⟨rfl, rfl⟩⟩,
      mapInsert_keys_nodup _ _ _ he1,
      mapInsert_forall _ _ _ _ he2 ⟨rfl, rfl⟩⟩

/-- One structure-mode row preserves the invariant. -/
theorem stepStruct_inv (acc : List (String × GraphNodeOut) × List (String × GraphEdgeOut))
    (row : GNode × Option GNode) (h : structInv acc) : structInv (stepStruct acc row) := by
  obtain ⟨⟨hn1, hn2⟩, he1, he2⟩ := h
  rw [stepStruct]
  have hnm1 : ((mapInsert acc.1 row.1.id
      (GraphNodeOut.mk row.1.id row.1.path "File" [("language", row.1.language)])).map
        Prod.fst).Nodup :=
    mapInsert_keys_nodup _ _ _ hn1
  have hnm2 : ∀ p ∈ mapInsert acc.1 row.1.id
      (GraphNodeOut.mk row.1.id row.1.path "File" [("language", row.1.language)]),
      p.2.id = p.1 ∧ (p.2.ty = "File" ∨ p.2.ty = "Function") :=
    mapInsert_forall _ _ _ _ hn2 ⟨rfl, Or.inl rfl⟩
  cases row.2 with
  | none => exact ⟨⟨hnm1, hnm2⟩, he1, he2⟩
  | some fn =>
    refine ⟨⟨mapInsert_keys_nodup _ _ _ hnm1,
      mapInsert_forall _ _ _ _ hnm2 ⟨rfl, Or.inr rfl⟩⟩,
      mapInsert_keys_nodup _ _ _ he1,
      mapInsert_forall _ _ _ _ he2 ⟨rfl, rfl⟩⟩

/-- The calls-mode fold maintains its invariant. -/
theorem foldl_stepCalls_inv : ∀ (rows : List (GNode × Option GNode))
    (acc : List (String × GraphNodeOut) × List (String × GraphEdgeOut)),
    callsInv acc → callsInv (rows.foldl stepCalls acc)
  | [], _, h => h
  | row :: rows, acc, h =>
    foldl_stepCalls_inv rows (stepCalls acc row) (stepCalls_inv acc row h)

/-- The structure-mode fold maintains its invariant. -/
theorem foldl_stepStruct_inv : ∀ (rows : List (GNode × Option GNode))
    (acc : List (String × GraphNodeOut) × List (String × GraphEdgeOut)),
    structInv acc → structInv (rows.foldl stepStruct acc)
  | [], _, h => h
  | row :: rows, acc, h =>
    foldl_stepStruct_inv rows (stepStruct acc row) (stepStruct_inv acc row h)

/-- C6: the structure graph never carries a CALLS edge, the calls graph
never carries a DECLARES edge or a File node, and in every mode the output
node ids and edge ids are each unique, the duplicates having been collapsed
by the id-keyed maps. -/
theorem c6_get_graph (g : Graph) (repoID : String) :
    (∀ ed ∈ (getGraph g repoID "structure").edges, ed.ty = "DECLARES") ∧
    (∀ ed ∈ (getGraph g repoID "calls").edges, ed.ty = "CALLS") ∧
    (∀ n ∈ (getGraph g repoID "calls").nodes, n.ty = "Function") ∧
    (∀ mode : String, ((getGraph g repoID mode).nodes.map GraphNodeOut.id).Nodup ∧
      ((getGraph g repoID mode).edges.map GraphEdgeOut.id).Nodup) := by
  have hcalls : callsInv ((callRows g repoID).foldl stepCalls ([], [])) :=
    foldl_stepCalls_inv _ _ ⟨⟨List.nodup_nil, by simp⟩, List.nodup_nil, by simp⟩
  have hstruct : structInv ((structRows g repoID).foldl stepStruct ([], [])) :=
    foldl_stepStruct_inv _ _ ⟨⟨List.nodup_nil, by simp⟩, List.nodup_nil, by simp⟩
  refine ⟨?_, ?_, ?_, ?_⟩
  · intro ed hed
    rw [getGraph] at hed
    rw [if_neg (by decide)] at hed
    simp only [] at hed
    rcases List.mem_map.mp hed with ⟨q, hq, rfl⟩
    exact (hstruct.2.2 q hq).2
  · intro ed hed
    rw [getGraph] at hed
    rw [if_pos rfl] at hed
    simp only [] at hed
    rcases List.mem_map.mp hed with ⟨q, hq, rfl⟩
    exact (hcalls.2.2 q hq).2
  · intro n hn
    rw [getGraph] at hn
    rw [if_pos rfl] at hn
    simp only [] at hn
    rcases List.mem_map.mp hn with ⟨p, hp, rfl⟩
    exact (hcalls.1.2 p hp).2
  · intro mode
    by_cases hm : mode = "calls"
    · subst hm
      rw [getGraph, if_pos rfl]
      exact ⟨snd_ids_nodup _ _ hcalls.1.1 (fun p hp => (hcalls.1.2 p hp).1),
        snd_ids_nodup _ _ hcalls.2.1 (fun q hq => (hcalls.2.2 q hq).1)⟩
    · rw [getGraph, if_neg hm]
      exact ⟨snd_ids_nodup _ _ hstruct.1.1 (fun p hp => (hstruct.1.2 p hp).1),
        snd_ids_nodup _ _ hstruct.2.1 (fun q hq => (hstruct.2.2 q hq).1)⟩

/-- Witness for c6_get_graph on a concrete one-file graph: the concrete
DECLARES edge of the structure view is typed DECLARES, and the node and edge
ids of the calls view are unique. -/
theorem c6_witness :
    (GraphEdgeOut.mk "f1->e1" "f1" "e1" "DECLARES").ty = "DECLARES" ∧
    ((getGraph exC5graph "r1" "calls").nodes.map GraphNodeOut.id).Nodup := by
  refine ⟨(c6_get_graph exC5graph "r1").1 _ ?_, ((c6_get_graph exC5graph "r1").2.2.2 "calls").1⟩
  decide

/-- Membership in the joined rows of VectorSearch. -/
theorem mem_vsRows (g : Graph) (hits : List (GNode × Int)) (repoId? : Option String)
    (row : GNode × GNode × Int) :
    row ∈ vsRows g hits repoId? ↔ ∃ h ∈ hits, ∃ f,
      (f ∈ g.nodes ∧ f.label = "File" ∧ g.hasEdge f.id h.1.id "DECLARES" = true) ∧
      ∃ r, (r ∈ g.nodes ∧ r.label = "Repository" ∧ g.hasEdge r.id f.id "CONTAINS" = true ∧
        repoFilter repoId? r = true) ∧ row = (h.1, r, h.2) := by
  simp only [vsRows, List.mem_flatMap, List.mem_map, List.mem_filter]
  constructor
  · rintro ⟨h, hh, f, hf, r, hr, rfl⟩
    have hf2 := of_decide_eq_true hf.2
    have hr2 := of_decide_eq_true hr.2
    exact ⟨h, hh, f, ⟨hf.1, hf2.1, hf2.2⟩, r, ⟨hr.1, hr2.1, hr2.2.1, hr2.2.2⟩, rfl⟩
  · rintro ⟨h, hh, f, ⟨hf1, hf2, hf3⟩, r, ⟨hr1, hr2, hr3, hr4⟩, rfl⟩
    exact ⟨h, hh, f, ⟨hf1, decide_eq_true (by exact ⟨hf2, hf3⟩)⟩,
      r, ⟨hr1, decide_eq_true (by exact ⟨hr2, hr3, hr4⟩)⟩, rfl⟩

/-- C7: a repository-scoped search only returns results of that repository;
results are ordered by descending score; every result carries its hit's node
fields, score, and the owning repository's id and name reached through the
DECLARES and CONTAINS join; and without a repository filter every joined hit
is returned, whatever its repository. -/
theorem c7_vector_search (g : Graph) (hits : List (GNode × Int)) :
    (∀ R : String, ∀ res ∈ vectorSearch g hits (some R), res.repoId = R) ∧
    (∀ repoId? : Option String,
      List.Pairwise (fun a b => b.score ≤ a.score) (vectorSearch g hits repoId?)) ∧
    (∀ repoId? : Option String, ∀ res ∈ vectorSearch g hits repoId?,
      ∃ node : GNode, ∃ r : GNode, ∃ score : Int, (node, score) ∈ hits ∧
        r ∈ g.nodes ∧ r.label = "Repository" ∧
        (∃ f ∈ g.nodes, f.label = "File" ∧ g.hasEdge f.id node.id "DECLARES" = true ∧
          g.hasEdge r.id f.id "CONTAINS" = true) ∧
        res = SearchResult.mk node.id node.name node.signature node.filePath r.id r.name
          score) ∧
    (∀ (node : GNode) (score : Int) (f r : GNode), (node, score) ∈ hits →
      f ∈ g.nodes → f.label = "File" → g.hasEdge f.id node.id "DECLARES" = true →
      r ∈ g.nodes → r.label = "Repository" → g.hasEdge r.id f.id "CONTAINS" = true →
      ∃ res ∈ vectorSearch g hits none,
        res = SearchResult.mk node.id node.name node.signature node.filePath r.id r.name
          score) := by
  have hmemrows : ∀ (repoId? : Option String) res, res ∈ vectorSearch g hits repoId? →
      ∃ row ∈ vsRows g hits repoId?,
        res = SearchResult.mk row.1.id row.1.name row.1.signature row.1.filePath
          row.2.1.id row.2.1.name row.2.2 := by
    intro repoId? res hres
    rw [vectorSearch] at hres
    rcases List.mem_map.mp hres with ⟨row, hrow, rfl⟩
    exact ⟨row, (List.mem_insertionSort scoreGE).mp hrow, rfl⟩
  refine ⟨?_, ?_, ?_, ?_⟩
  · intro R res hres
    rcases hmemrows (some R) res hres with ⟨row, hrow, rfl⟩
    rcases (mem_vsRows g hits (some R) row).mp hrow with
      ⟨h, _, f, _, r, ⟨_, _, _, hfilter⟩, rfl⟩
    have : r.id = R := by
      rw [repoFilter] at hfilter
      exact of_decide_eq_true hfilter
    exact this
  · intro repoId?
    rw [vectorSearch]
    have hsorted := List.sorted_insertionSort scoreGE (vsRows g hits repoId?)
    exact List.Pairwise.map _ (fun a b hab => hab) hsorted
  · intro repoId? res hres
    rcases hmemrows repoId? res hres with ⟨row, hrow, rfl⟩
    rcases (mem_vsRows g hits repoId? row).mp hrow with
      ⟨h, hh, f, ⟨hf1, hf2, hf3⟩, r, ⟨hr1, hr2, hr3, _⟩, rfl⟩
    exact ⟨h.1, r, h.2, hh, hr1, hr2, ⟨f, hf1, hf2, hf3, hr3⟩, rfl⟩
  · intro node score f r hh hf1 hf2 hf3 hr1 hr2 hr3
    have hrow : (node, r, score) ∈ vsRows g hits none :=
      (mem_vsRows g hits none (node, r, score)).mpr
        ⟨(node, score), hh, f, ⟨hf1, hf2, hf3⟩, r, ⟨hr1, hr2, hr3, rfl⟩, rfl⟩
    refine ⟨SearchResult.mk node.id node.name node.signature node.filePath r.id r.name score,
      ?_, rfl⟩
    rw [vectorSearch]
    exact List.mem_map.mpr ⟨(node, r, score), (List.mem_insertionSort scoreGE).mpr hrow, rfl⟩

/-- Witness for c7_vector_search on a one-repository graph with one embedded
function and one index hit. -/
theorem c7_witness :
    (SearchResult.mk "e1" "main" "func main()" "main.go" "r1" "demo" 90).repoId = "r1" ∧
    ∃ res ∈ vectorSearch exC7graph exC7hits none,
      res = SearchResult.mk "e1" "main" "func main()" "main.go" "r1" "demo" 90 := by
  constructor
  · exact (c7_vector_search exC7graph exC7hits).1 "r1" _ (by decide)
  · exact (c7_vector_search exC7graph exC7hits).2.2.2 exC7fn 90 exC7file exC7repo
      (by decide) (by decide) (by decide) (by decide) (by decide) (by decide) (by decide)

/-- hasEdge decides membership of the edge record. -/
theorem hasEdge_iff (g : Graph) (s t ty : String) :
    g.hasEdge s t ty = true ↔ GEdge.mk s t ty ∈ g.edges := by
  rw [Graph.hasEdge]
  exact List.elem_iff

/-- Membership among the files the clear query matches. -/
theorem mem_clearFiles (g : Graph) (repoID : String) (x : GNode) :
    x ∈ clearFiles g repoID ↔ x ∈ g.nodes ∧ x.label = "File" ∧
      ∃ r ∈ g.nodes, r.label = "Repository" ∧ r.id = repoID ∧
        g.hasEdge r.id x.id "CONTAINS" = true := by
  simp only [clearFiles, List.mem_filter, List.any_eq_true, decide_eq_true_eq]

/-- Membership among the nodes the clear query matches through DECLARES. -/
theorem mem_clearEntities (g : Graph) (repoID : String) (x : GNode) :
    x ∈ clearEntities g repoID ↔ x ∈ g.nodes ∧
      ∃ f ∈ clearFiles g repoID, g.hasEdge f.id x.id "DECLARES" = true := by
  simp only [clearEntities, List.mem_filter, List.any_eq_true, decide_eq_true_eq]

/-- Membership among the deleted ids. -/
theorem mem_deletedIds (g : Graph) (repoID : String) (s : String) :
    s ∈ deletedIds g repoID ↔ (∃ m ∈ clearFiles g repoID, m.id = s) ∨
      ∃ m ∈ clearEntities g repoID, m.id = s := by
  simp only [deletedIds, List.mem_append, List.mem_map]

/-- C8: clearing a repository removes exactly the File nodes the repository
contains and the nodes those files declare, with every incident edge; every
Repository node survives with its record intact, and so does every node
carrying a different repository id. -/
theorem c8_clear_repository (g : Graph) (repoID : String) (hwf : g.WellFormed) :
    (∀ n ∈ g.nodes, (n ∉ (clearRepository g repoID).nodes ↔
      (n.label = "File" ∧ ∃ r ∈ g.nodes, r.label = "Repository" ∧ r.id = repoID ∧
        g.hasEdge r.id n.id "CONTAINS" = true) ∨
      (∃ f ∈ g.nodes, f.label = "File" ∧
        (∃ r ∈ g.nodes, r.label = "Repository" ∧ r.id = repoID ∧
          g.hasEdge r.id f.id "CONTAINS" = true) ∧
        g.hasEdge f.id n.id "DECLARES" = true))) ∧
    (∀ n ∈ g.nodes, n.label = "Repository" → n ∈ (clearRepository g repoID).nodes) ∧
    (∀ n ∈ g.nodes, n.repoId ≠ repoID → n ∈ (clearRepository g repoID).nodes) ∧
    (∀ ed ∈ g.edges, (ed ∈ (clearRepository g repoID).edges ↔
      ed.src ∉ deletedIds g repoID ∧ ed.tgt ∉ deletedIds g repoID)) := by
  obtain ⟨hids, hcont, hdecl⟩ := hwf
  have hsurvive : ∀ n, n ∈ (clearRepository g repoID).nodes ↔
      n ∈ g.nodes ∧ n.id ∉ deletedIds g repoID := by
    intro n
    simp only [clearRepository, List.mem_filter, decide_eq_true_eq]
  have hdel : ∀ n ∈ g.nodes, (n.id ∈ deletedIds g repoID ↔
      n ∈ clearFiles g repoID ∨ n ∈ clearEntities g repoID) := by
    intro n hn
    rw [mem_deletedIds]
    constructor
    · rintro (⟨m, hm, hid⟩ | ⟨m, hm, hid⟩)
      · have hmn : m ∈ g.nodes := ((mem_clearFiles g repoID m).mp hm).1
        have : m = n := List.inj_on_of_nodup_map hids hmn hn hid
        exact Or.inl (this ▸ hm)
      · have hmn : m ∈ g.nodes := ((mem_clearEntities g repoID m).mp hm).1
        have : m = n := List.inj_on_of_nodup_map hids hmn hn hid
        exact Or.inr (this ▸ hm)
    · rintro (h | h)
      · exact Or.inl ⟨n, h, rfl⟩
      · exact Or.inr ⟨n, h, rfl⟩
  have hnotin : ∀ n ∈ g.nodes, (n ∉ (clearRepository g repoID).nodes ↔
      n ∈ clearFiles g repoID ∨ n ∈ clearEntities g repoID) := by
    intro n hn
    rw [hsurvive]
    constructor
    · intro h
      by_cases hd : n.id ∈ deletedIds g repoID
      · exact (hdel n hn).mp hd
      · exact absurd ⟨hn, hd⟩ h
    · intro h hcon
      exact hcon.2 ((hdel n hn).mpr h)
  refine ⟨?_, ?_, ?_, ?_⟩
  · intro n hn
    rw [hnotin n hn]
    constructor
    · rintro (h | h)
      · rcases (mem_clearFiles g repoID n).mp h with ⟨_, hlab, r, hr, hrl, hri, he⟩
        exact Or.inl ⟨hlab, r, hr, hrl, hri, he⟩
      · rcases (mem_clearEntities g repoID n).mp h with ⟨_, f, hf, hfe⟩
        rcases (mem_clearFiles g repoID f).mp hf with ⟨hfn, hflab, r, hr, hrl, hri, hre⟩
        exact Or.inr ⟨f, hfn, hflab, ⟨r, hr, hrl, hri, hre⟩, hfe⟩
    · rintro (⟨hlab, r, hr, hrl, hri, he⟩ | ⟨f, hfn, hflab, ⟨r, hr, hrl, hri, hre⟩, hfe⟩)
      · exact Or.inl ((mem_clearFiles g repoID n).mpr ⟨hn, hlab, r, hr, hrl, hri, he⟩)
      · exact Or.inr ((mem_clearEntities g repoID n).mpr
          ⟨hn, f, (mem_clearFiles g repoID f).mpr ⟨hfn, hflab, r, hr, hrl, hri, hre⟩, hfe⟩)
  · intro n hn hrep
    by_contra hcon
    rcases (hnotin n hn).mp hcon with h | h
    · have := ((mem_clearFiles g repoID n).mp h).2.1
      rw [hrep] at this
      exact absurd this (by decide)
    · rcases (mem_clearEntities g repoID n).mp h with ⟨_, f, hf, hfe⟩
      rcases (mem_clearFiles g repoID f).mp hf with ⟨hfn, hflab, _⟩
      have := (hdecl f hfn n hn hflab ((hasEdge_iff g f.id n.id "DECLARES").mp hfe)).2
      exact this hrep
  · intro n hn hnrep
    by_contra hcon
    rcases (hnotin n hn).mp hcon with h | h
    · rcases (mem_clearFiles g repoID n).mp h with ⟨_, _, r, hr, hrl, hri, he⟩
      have := hcont r hr n hn hrl ((hasEdge_iff g r.id n.id "CONTAINS").mp he)
      rw [hri] at this
      exact hnrep this
    · rcases (mem_clearEntities g repoID n).mp h with ⟨_, f, hf, hfe⟩
      rcases (mem_clearFiles g repoID f).mp hf with ⟨hfn, hflab, r, hr, hrl, hri, hre⟩
      have h1 := (hdecl f hfn n hn hflab ((hasEdge_iff g f.id n.id "DECLARES").mp hfe)).1
      have h2 := hcont r hr f hfn hrl ((hasEdge_iff g r.id f.id "CONTAINS").mp hre)
      rw [hri] at h2
      rw [h1, h2] at hnrep
      exact hnrep rfl
  · intro ed hed
    simp only [clearRepository, List.mem_filter, decide_eq_true_eq]
    constructor
    · rintro ⟨_, h⟩; exact h
    · intro h; exact ⟨hed, h⟩

/-- Witness for c8_clear_repository on a two-repository graph: clearing the
first repository keeps its Repository node and the second repository's
entity, and deletes the first repository's file. -/
theorem c8_witness :
    exC8repo1 ∈ (clearRepository exC8graph "r1").nodes ∧
    exC8ent2 ∈ (clearRepository exC8graph "r1").nodes ∧
    exC8file1 ∉ (clearRepository exC8graph "r1").nodes := by
  have h := c8_clear_repository exC8graph "r1" (by decide)
  refine ⟨h.2.1 exC8repo1 (by decide) rfl, h.2.2.1 exC8ent2 (by decide) (by decide), ?_⟩
  exact (h.1 exC8file1 (by decide)).mpr
    (Or.inl ⟨rfl, exC8repo1, by decide, rfl, rfl, by decide⟩)

/-- Witness for c10_class_entities: the extracted Go struct entity of a
concrete file carries no calls, and the source of the concrete written CALLS
edge is a Function node. -/
theorem c10_witness :
    exC10entity.calls = [] ∧ isFnOrMethod exC3caller = true := by
  constructor
  · exact c10_class_entities.1 exC10content exC10root "t.go" exC10entity (by decide) (by decide)
  · exact c10_class_entities.2.2.2.2.2 exC3graph exC3ent (by decide)
      (GEdge.mk "n1" "n2" "CALLS") (by decide) (by decide) exC3caller (by decide) (by decide)

end NeoGraph
